import Mathlib

/-!
# Perfetto glue of llama.cpp: session lifecycle and GPU timeline correlator

A shallow embedding of `src/profiler/llama_perfetto.cpp`.

* Text is `List Char` (the bytes of a `std::string`).
* `uint64_t` values are `Nat` below `2^64`; every operation that can wrap
  carries its explicit `% 2^64`.  `int64_t` values are `Int` in
  `[-2^63, 2^63)` with two's-complement wrap-around.
* The process globals (`g_session`, `g_trace_fd`, ...) and the function-local
  statics form the record `State`; every entry point is a function
  `World → State → State × List Effect`, where `World` fixes what the
  collaborators outside the file answer (symbol lookup, the Vulkan dump
  functions, the file system, the clocks) and the `Effect` list is what the
  call does to the outside, in program order.
* The body of the background flush thread is not modelled; only its spawn
  and its join are.  The POSIX branch of every `#if defined(_WIN32)` is the
  one embedded.
-/

namespace LlamaPerfetto

/-! ## Machine integers -/

/-- The modulus of `uint64_t`. -/
def U64 : Nat := 2 ^ 64

/-- The cast `(int64_t) x` of a `uint64_t` value. -/
def toInt64 (x : Nat) : Int :=
  if x % U64 < 2 ^ 63 then ((x % U64 : Nat) : Int) else ((x % U64 : Nat) : Int) - (U64 : Int)

/-- The result of an `int64_t` operation whose mathematical value is `x`
(two's-complement wrap-around). -/
def wrapInt64 (x : Int) : Int :=
  (x + 2 ^ 63) % (U64 : Int) - 2 ^ 63

/-- The cast `(uint64_t) x` of an `int64_t` value. -/
def toUInt64 (x : Int) : Nat :=
  (x % (U64 : Int)).toNat

/-- The `uint64_t` subtraction `a - b`. -/
def subU64 (a b : Nat) : Nat :=
  (a % U64 + U64 - b % U64) % U64

/-! ## Text helpers: `std::string::find`, `std::getline`, `strtoull` -/

/-- The call `line.find(',', from)`: index of the first comma at or after
`from`, `none` for `std::string::npos`. -/
def findComma : List Char → Nat → Option Nat
  | [], _ => none
  | c :: cs, 0 => if c = ',' then some 0 else (findComma cs 0).map (· + 1)
  | _ :: cs, n + 1 => (findComma cs n).map (· + 1)

/-- The call `line.substr(pos, len)`. -/
def substr (line : List Char) (pos len : Nat) : List Char :=
  (line.drop pos).take len

/-- The call `line.substr(pos)`. -/
def substrFrom (line : List Char) (pos : Nat) : List Char :=
  line.drop pos

/-- The view `s.c_str()` as a C string: the bytes before the first NUL. -/
def c_str (s : List Char) : List Char :=
  s.takeWhile (fun c => c ≠ '\x00')

/-- The loop `while (std::getline(ifs, line))` over the rest of a stream:
`cur` holds (reversed) the characters taken by the running `getline`, `any`
says whether it has taken any.  A newline closes the line; at the end of the
stream a line is delivered only when characters were taken. -/
def getlinesAux : List Char → List Char → Bool → List (List Char)
  | [], cur, any => if any then [cur.reverse] else []
  | c :: cs, cur, _ =>
    if c = '\n' then cur.reverse :: getlinesAux cs [] false
    else getlinesAux cs (c :: cur) true

/-- All lines that `while (std::getline(ifs, line))` delivers for a file. -/
def getlines (content : List Char) : List (List Char) :=
  getlinesAux content [] false

/-- The predicate `isspace` of the C locale. -/
def isspace (c : Char) : Bool :=
  c = ' ' || c = '\t' || c = '\n' || c = '\x0b' || c = '\x0c' || c = '\r'

/-- The predicate `isdigit`. -/
def isdigit (c : Char) : Bool :=
  decide ('0'.toNat ≤ c.toNat) && decide (c.toNat ≤ '9'.toNat)

/-- The exact value of the leading run of decimal digits, starting from
`acc`, and whether the run holds a digit at all. -/
def digitRun : List Char → Nat → Bool → Nat × Bool
  | [], acc, seen => (acc, seen)
  | c :: cs, acc, seen =>
    if isdigit c then digitRun cs (acc * 10 + (c.toNat - '0'.toNat)) true
    else (acc, seen)

/-- The C library call `strtoull(s, nullptr, 10)`: leading white space, an
optional sign, then the longest run of decimal digits.  No digit gives 0, a
value that does not fit gives `ULLONG_MAX`, a minus sign negates modulo
`2^64`. -/
def strtoull (s : List Char) : Nat :=
  let body := s.dropWhile isspace
  let (neg, rest) :=
    match body with
    | '-' :: r => (true, r)
    | '+' :: r => (false, r)
    | r => (false, r)
  let (v, seen) := digitRun rest 0 false
  if !seen then 0
  else if U64 ≤ v then U64 - 1
  else if neg then (U64 - v) % U64
  else v

/-! ## Interval records and the two line parsers -/

/-- The local structs `AbsEntry` / `Entry`: a named interval. -/
structure Entry where
  name : List Char
  s : Nat
  e : Nat
  deriving DecidableEq, Repr

/-- The shared head of both parse loops: locate the two commas and convert
the three fields; `none` is the `continue` of a line without two commas. -/
def parseLine (line : List Char) : Option Entry :=
  let c1 := findComma line 0
  let c2 := findComma line (match c1 with | none => 0 | some i => i + 1)
  match c1, c2 with
  | some i, some j =>
    some { name := substrFrom line (j + 1),
           s := strtoull (c_str (substr line 0 i)),
           e := strtoull (c_str (substr line (i + 1) (j - i - 1))) }
  | _, _ => none

/-- The parse loop of Path A (lines 306-314): a record is pushed only when
`e > s && s != 0`. -/
def parseAbs : List (List Char) → List Entry
  | [] => []
  | line :: rest =>
    match parseLine line with
    | none => parseAbs rest
    | some r => if r.e > r.s && r.s ≠ 0 then r :: parseAbs rest else parseAbs rest

/-- The parse loop of Path B (lines 373-381): every record is pushed and
`total_span` is raised to its end when that is larger.  The result is the
entry vector and the final `total_span`, starting from `total_span = span`. -/
def parseRel : List (List Char) → Nat → List Entry × Nat
  | [], span => ([], span)
  | line :: rest, span =>
    match parseLine line with
    | none => parseRel rest span
    | some r =>
      let out := parseRel rest (if r.e > span then r.e else span)
      (r :: out.1, out.2)

/-! ## Occupancy events, their sort and the scan -/

/-- The local struct `Ev`. -/
structure Ev where
  ts : Nat
  delta : Int
  deriving DecidableEq, Repr

/-- A counter sample `TRACE_COUNTER("GPU", "gpu_busy_percent", ts, value)`;
`percent` is 0 for `0.0` and 100 for `100.0`. -/
structure Sample where
  ts : Nat
  percent : Nat
  deriving DecidableEq, Repr

/-- The comparator handed to `std::sort`. -/
def evLess (a b : Ev) : Prop :=
  if a.ts ≠ b.ts then a.ts < b.ts else a.delta < b.delta

instance (a b : Ev) : Decidable (evLess a b) := by
  unfold evLess; exact inferInstance

/-- The call `std::sort(evs.begin(), evs.end(), cmp)`.  The comparator is a
strict total order on the values of `Ev` (two events it does not separate
are equal), so the sorted vector is the same for every sorting algorithm;
insertion sort computes it. -/
def sortEvs (evs : List Ev) : List Ev :=
  evs.insertionSort (fun a b => ¬ evLess b a)

/-- The scan loop (lines 350-354 and 419) from a running count `active`. -/
def scan : Int → List Ev → List Sample
  | _, [] => []
  | active, ev :: rest =>
    if ev.delta < 0 then
      let active1 := active + ev.delta
      if active1 = 0 then { ts := ev.ts, percent := 0 } :: scan active1 rest
      else scan active1 rest
    else
      if active = 0 then { ts := ev.ts, percent := 100 } :: scan (active + ev.delta) rest
      else scan (active + ev.delta) rest

/-- A placed interval `[start_ns, end_ns]`. -/
abbrev Placed := Nat × Nat

/-- The events Path A pushes (lines 342-343): a pair for every interval. -/
def eventsAbs : List Placed → List Ev
  | [] => []
  | (s, e) :: rest => { ts := s, delta := 1 } :: { ts := e, delta := -1 } :: eventsAbs rest

/-- The events Path B pushes (line 415): a pair only when `end_ns > start_ns`. -/
def eventsRel : List Placed → List Ev
  | [] => []
  | (s, e) :: rest =>
    if e > s then { ts := s, delta := 1 } :: { ts := e, delta := -1 } :: eventsRel rest
    else eventsRel rest

/-- The counter samples of a pass from its event vector: nothing for an empty
vector (`if (!evs.empty())`), else sort and scan from `active = 0`. -/
def occupancy (evs : List Ev) : List Sample :=
  if evs.isEmpty then [] else scan 0 (sortEvs evs)

/-! ## The world outside the file, the effects, the state -/

/-- What the collaborators answer during a call.  A dump function gives its
return value together with what the dumped file then reads as (`none` when
the `std::ifstream` is not good). -/
structure World where
  dlsym_dump_stats : Bool
  dlsym_get_desc : Bool
  dlsym_get_mem : Bool
  dlsym_dump_timeline : Bool
  dlsym_dump_timeline_abs : Bool
  dlsym_get_anchor_mono_ns : Bool
  vk_dump_stats : List Char → Bool × Option (List Char)
  vk_dump_timeline : List Char → Bool × Option (List Char)
  vk_dump_timeline_abs : List Char → Bool × Option (List Char)
  vk_get_desc : List Char
  vk_get_mem_total : Nat
  vk_anchor_mono_ns : Nat
  sys_open : List Char → Int
  temp_stats_path : List Char
  trace_now : Nat
  mono_now : Nat
  trace_now_late : Nat

/-- A GPU span: the pair `TRACE_EVENT_BEGIN("GPU", name, gpu_track, start_ns)`,
`TRACE_EVENT_END("GPU", gpu_track, end_ns)`. -/
structure Span where
  name : List Char
  start_ns : Nat
  end_ns : Nat
  deriving DecidableEq, Repr

/-- What a call does to the outside, one constructor per kind of call. -/
inductive Effect where
  | tracing_initialize
  | open_file (path : List Char) (fd : Int)
  | session_setup (fd : Int)
  | start_blocking
  | spawn_flusher
  | join_flusher
  | flush_blocking
  | stop_blocking
  | fsync (fd : Int)
  | close (fd : Int)
  | dump_stats (path : List Char)
  | dump_timeline (path : List Char)
  | dump_timeline_abs (path : List Char)
  | remove_file (path : List Char)
  | print_notice (desc : List Char)
  | print_memory (total_b : Nat)
  | print_line (line : List Char)
  | track_descriptor
  | span (sp : Span)
  | counter (c : Sample)
  deriving DecidableEq, Repr

/-- The globals of the file and its function-local statics.  `g_session` and
`g_flush_thread` record whether the pointer is non-null and whether the
thread is joinable; a capability slot records whether it is non-null. -/
structure State where
  initialized : Bool
  g_session : Bool
  g_flush_stop : Bool
  g_flush_thread : Bool
  g_trace_fd : Int
  g_trace_path : List Char
  g_vk_syms_resolved : Bool
  g_vk_dump_stats : Bool
  g_vk_get_desc : Bool
  g_vk_get_mem : Bool
  g_vk_dump_timeline : Bool
  g_vk_dump_timeline_abs : Bool
  g_vk_get_anchor_mono_ns : Bool
  warned : Bool
  desc_abs : Bool
  desc_rel : Bool
  deriving DecidableEq, Repr

/-- The state at process start, from the initialisers of the globals. -/
def State.init : State :=
  { initialized := false, g_session := false, g_flush_stop := true,
    g_flush_thread := false, g_trace_fd := -1, g_trace_path := [],
    g_vk_syms_resolved := false, g_vk_dump_stats := false, g_vk_get_desc := false,
    g_vk_get_mem := false, g_vk_dump_timeline := false,
    g_vk_dump_timeline_abs := false, g_vk_get_anchor_mono_ns := false,
    warned := false, desc_abs := false, desc_rel := false }

/-- The session part of the state: handle, stop flag, flush thread, file
descriptor and path. -/
structure Session where
  session : Bool
  flush_stop : Bool
  flush_thread : Bool
  fd : Int
  path : List Char
  deriving DecidableEq, Repr

/-- The session part of a state. -/
def State.session (st : State) : Session :=
  { session := st.g_session, flush_stop := st.g_flush_stop,
    flush_thread := st.g_flush_thread, fd := st.g_trace_fd, path := st.g_trace_path }

/-- The spans among the effects of a call, in order. -/
def spansOf : List Effect → List Span
  | [] => []
  | Effect.span sp :: rest => sp :: spansOf rest
  | _ :: rest => spansOf rest

/-- The counter samples among the effects of a call, in order. -/
def samplesOf : List Effect → List Sample
  | [] => []
  | Effect.counter c :: rest => c :: samplesOf rest
  | _ :: rest => samplesOf rest

/-- What a call writes to `stdout`, in order. -/
def stdoutOf : List Effect → List Effect
  | [] => []
  | Effect.print_notice d :: rest => Effect.print_notice d :: stdoutOf rest
  | Effect.print_memory t :: rest => Effect.print_memory t :: stdoutOf rest
  | Effect.print_line l :: rest => Effect.print_line l :: stdoutOf rest
  | _ :: rest => stdoutOf rest

/-! ## Session lifecycle -/

/-- The function `llama_perfetto_init_once`. -/
def llama_perfetto_init_once (st : State) : State × List Effect :=
  if st.initialized then (st, [])
  else ({ st with initialized := true }, [Effect.tracing_initialize])

/-- The function `llama_perfetto_resolve_vk_syms_once`: the first call copies
the six lookups into the slots. -/
def llama_perfetto_resolve_vk_syms_once (w : World) (st : State) : State :=
  if st.g_vk_syms_resolved then st
  else
    { st with
      g_vk_syms_resolved := true
      g_vk_dump_stats := w.dlsym_dump_stats
      g_vk_get_desc := w.dlsym_get_desc
      g_vk_get_mem := w.dlsym_get_mem
      g_vk_dump_timeline := w.dlsym_dump_timeline
      g_vk_dump_timeline_abs := w.dlsym_dump_timeline_abs
      g_vk_get_anchor_mono_ns := w.dlsym_get_anchor_mono_ns }

/-- The function `llama_perfetto_start_trace`; `path` is `none` for a null
pointer and else the text of the C string. -/
def llama_perfetto_start_trace (w : World) (path : Option (List Char)) (st : State) :
    State × List Effect :=
  if st.g_session then (st, [])
  else
    match path with
    | none => (st, [])
    | some p =>
      if p.isEmpty then (st, [])
      else
        let (st1, e1) := llama_perfetto_init_once st
        let fd := w.sys_open p
        ({ st1 with
            g_session := true
            g_trace_fd := fd
            g_trace_path := p
            g_flush_stop := false
            g_flush_thread := true },
          e1 ++ [Effect.open_file p fd, Effect.session_setup fd, Effect.start_blocking,
                 Effect.spawn_flusher])

/-- The suffix of the companion stats file. -/
def vkstats : List Char := ['.', 'v', 'k', 's', 't', 'a', 't', 's']

/-- The function `llama_perfetto_stop_flush`. -/
def llama_perfetto_stop_flush (w : World) (st : State) : State × List Effect :=
  let st1 := { st with g_flush_stop := true }
  let (st2, e2) :=
    if st1.g_flush_thread then ({ st1 with g_flush_thread := false }, [Effect.join_flusher])
    else (st1, [])
  let (st3, e3) :=
    if st2.g_session then
      ({ st2 with g_session := false }, [Effect.flush_blocking, Effect.stop_blocking])
    else (st2, [])
  let (st4, e4) :=
    if st3.g_trace_fd ≠ -1 then
      ({ st3 with g_trace_fd := -1 }, [Effect.fsync st3.g_trace_fd, Effect.close st3.g_trace_fd])
    else (st3, [])
  let st5 := llama_perfetto_resolve_vk_syms_once w st4
  let e5 :=
    if !st5.g_trace_path.isEmpty && st5.g_vk_dump_stats then
      [Effect.dump_stats (st5.g_trace_path ++ vkstats)]
    else []
  (st5, e2 ++ e3 ++ e4 ++ e5)

/-- The function `llama_perfetto_tmp_stats_path`: beside the trace when a
path is set, else the name the world builds in the temporary directory. -/
def llama_perfetto_tmp_stats_path (w : World) (st : State) : List Char :=
  if !st.g_trace_path.isEmpty then st.g_trace_path ++ vkstats else w.temp_stats_path

/-! ## Stats reporter -/

/-- The function `llama_perfetto_print_gpu_stats`. -/
def llama_perfetto_print_gpu_stats (w : World) (st : State) : State × List Effect :=
  let st1 := llama_perfetto_resolve_vk_syms_once w st
  if !st1.g_vk_dump_stats then (st1, [])
  else
    let path := llama_perfetto_tmp_stats_path w st1
    let (ok, file) := w.vk_dump_stats path
    if !ok then
      if !st1.warned then
        let desc := if st1.g_vk_get_desc then (c_str w.vk_get_desc).take 255 else []
        let total_b := if st1.g_vk_get_mem then w.vk_get_mem_total % U64 else 0
        ({ st1 with warned := true },
          [Effect.dump_stats path, Effect.print_notice desc] ++
            (if total_b ≠ 0 then [Effect.print_memory total_b] else []))
      else (st1, [Effect.dump_stats path])
    else
      match file with
      | none => (st1, [Effect.dump_stats path])
      | some content =>
        (st1, [Effect.dump_stats path] ++
          (getlines content).map (fun l => Effect.print_line (c_str l)) ++
          (if st1.g_trace_path.isEmpty then [Effect.remove_file path] else []))

/-- The effects of `n` calls of `llama_perfetto_print_gpu_stats` in a row and
the state after them; the world answers every call alike. -/
def print_gpu_stats_times (w : World) : Nat → State → State × List Effect
  | 0, st => (st, [])
  | n + 1, st =>
    let r1 := llama_perfetto_print_gpu_stats w st
    let r2 := print_gpu_stats_times w n r1.1
    (r2.1, r1.2 ++ r2.2)

/-! ## Timeline correlator -/

/-- The statement `if (p.size() >= 8) p.replace(p.size() - 7, 7, ext)`. -/
def replaceTail (p ext : List Char) : List Char :=
  if p.length ≥ 8 then p.take (p.length - 7) ++ ext else p

/-- The scratch-file extension of Path A. -/
def vktimeline_abs : List Char :=
  ['v', 'k', 't', 'i', 'm', 'e', 'l', 'i', 'n', 'e', '.', 'a', 'b', 's']

/-- The scratch-file extension of Path B. -/
def vktimeline : List Char :=
  ['v', 'k', 't', 'i', 'm', 'e', 'l', 'i', 'n', 'e']

/-- The offset of a correlation pass (lines 319-323 and 391-394):
`(int64_t)trace_now - (int64_t)mono_now`. -/
def clockOffset (w : World) : Int :=
  wrapInt64 (toInt64 (w.trace_now % U64) - toInt64 (w.mono_now % U64))

/-- The placement of Path A (lines 338-341): both ends are
`(uint64_t)((int64_t)x + offset)`. -/
def placeAbs (offset : Int) (r : Entry) : Span :=
  { name := c_str r.name,
    start_ns := toUInt64 (wrapInt64 (toInt64 r.s + offset)),
    end_ns := toUInt64 (wrapInt64 (toInt64 r.e + offset)) }

/-- The placement of Path B (lines 411-414): both ends are
`now - (total_span - x)` in `uint64_t`. -/
def placeRel (now total_span : Nat) (r : Entry) : Span :=
  { name := c_str r.name,
    start_ns := subU64 now (subU64 total_span r.s),
    end_ns := subU64 now (subU64 total_span r.e) }

/-- The interval a span occupies. -/
def Span.placed (sp : Span) : Placed := (sp.start_ns, sp.end_ns)

/-- The value `anchor_trace` of Path B (lines 386-398): the backend anchor
moved to the trace clock when the anchor entry point is there and answers
non-zero, else 0. -/
def anchorTrace (w : World) (st : State) : Nat :=
  if st.g_vk_get_anchor_mono_ns then
    let anchor_mono := w.vk_anchor_mono_ns % U64
    if anchor_mono ≠ 0 then toUInt64 (wrapInt64 (toInt64 anchor_mono + clockOffset w))
    else 0
  else 0

/-- The value `now` of Path B (line 399). -/
def relNow (w : World) (st : State) : Nat :=
  if anchorTrace w st ≠ 0 then anchorTrace w st else w.trace_now_late % U64

/-- Path A of `llama_perfetto_emit_gpu_timeline` (lines 297-360): new state,
effects, and the flag `emitted`. -/
def emitAbs (w : World) (st : State) : State × List Effect × Bool :=
  if st.g_vk_dump_timeline_abs then
    let path_abs := replaceTail (llama_perfetto_tmp_stats_path w st) vktimeline_abs
    let (ok, file) := w.vk_dump_timeline_abs path_abs
    if ok then
      match file with
      | none => (st, [Effect.dump_timeline_abs path_abs], false)
      | some content =>
        let aentries := parseAbs (getlines content)
        if !aentries.isEmpty then
          let spans := aentries.map (placeAbs (clockOffset w))
          ({ st with desc_abs := true },
            [Effect.dump_timeline_abs path_abs, Effect.remove_file path_abs] ++
              (if st.desc_abs then [] else [Effect.track_descriptor]) ++
              spans.map Effect.span ++
              (occupancy (eventsAbs (spans.map Span.placed))).map Effect.counter,
            true)
        else
          (st, [Effect.dump_timeline_abs path_abs, Effect.remove_file path_abs], false)
    else (st, [Effect.dump_timeline_abs path_abs], false)
  else (st, [], false)

/-- Path B of `llama_perfetto_emit_gpu_timeline` (lines 364-420). -/
def emitRel (w : World) (st : State) : State × List Effect :=
  let path := replaceTail (llama_perfetto_tmp_stats_path w st) vktimeline
  let (ok, file) := w.vk_dump_timeline path
  if !ok then (st, [Effect.dump_timeline path])
  else
    match file with
    | none => (st, [Effect.dump_timeline path])
    | some content =>
      let (entries, total_span) := parseRel (getlines content) 0
      if entries.isEmpty || total_span = 0 then
        (st, [Effect.dump_timeline path, Effect.remove_file path])
      else
        let spans := entries.map (placeRel (relNow w st) total_span)
        ({ st with desc_rel := true },
          [Effect.dump_timeline path, Effect.remove_file path] ++
            (if st.desc_rel then [] else [Effect.track_descriptor]) ++
            spans.map Effect.span ++
            (occupancy (eventsRel (spans.map Span.placed))).map Effect.counter)

/-- The function `llama_perfetto_emit_gpu_timeline`. -/
def llama_perfetto_emit_gpu_timeline (w : World) (st : State) : State × List Effect :=
  if !st.g_session then (st, [])
  else
    let st1 := llama_perfetto_resolve_vk_syms_once w st
    if !st1.g_vk_dump_timeline then (st1, [])
    else
      let (st2, effA, emitted) := emitAbs w st1
      if emitted then (st2, effA)
      else
        let (st3, effB) := emitRel w st2
        (st3, effA ++ effB)

/-! ## Concrete worlds and states for the witnesses -/

/-- A world whose six symbol lookups all fail. -/
def worldAbsent : World :=
  { dlsym_dump_stats := false, dlsym_get_desc := false, dlsym_get_mem := false,
    dlsym_dump_timeline := false, dlsym_dump_timeline_abs := false,
    dlsym_get_anchor_mono_ns := false,
    vk_dump_stats := fun _ => (false, none),
    vk_dump_timeline := fun _ => (false, none),
    vk_dump_timeline_abs := fun _ => (false, none),
    vk_get_desc := [], vk_get_mem_total := 0, vk_anchor_mono_ns := 0,
    sys_open := fun _ => 3, temp_stats_path := ['s'],
    trace_now := 1000, mono_now := 400, trace_now_late := 1000 }

/-- A world in which only the pipeline-stats dump is found, and it reports
failure. -/
def worldStatsFail : World :=
  { worldAbsent with dlsym_dump_stats := true }

/-- A world in which only the absolute-timeline dump is found; its scratch
file holds the single valid record `5,9,mul`. -/
def worldAbsOnly : World :=
  { worldAbsent with
    dlsym_dump_timeline_abs := true
    vk_dump_timeline_abs := fun _ => (true, some ['5', ',', '9', ',', 'm', 'u', 'l', '\n']) }

/-- A world in which both timeline dumps are found; the absolute scratch file
holds the single valid record `5,9,mul`, the relative one the records
`0,10,k` and `7,3,j`. -/
def worldBoth : World :=
  { worldAbsOnly with
    dlsym_dump_timeline := true
    vk_dump_timeline := fun _ =>
      (true, some ['0', ',', '1', '0', ',', 'k', '\n', '7', ',', '3', ',', 'j', '\n']) }

/-- A world in which only the relative-timeline dump is found, with the
scratch file of `worldBoth`. -/
def worldRelOnly : World :=
  { worldBoth with dlsym_dump_timeline_abs := false }

/-- A world in which only the relative-timeline dump is found; its scratch
file holds the single record `5,0,x`, whose end is 0. -/
def worldRelZero : World :=
  { worldRelOnly with
    vk_dump_timeline := fun _ => (true, some ['5', ',', '0', ',', 'x', '\n']) }

/-- The state after `llama_perfetto_start_trace("t.pf")` at process start. -/
def stateOpen : State :=
  (llama_perfetto_start_trace worldAbsent (some ['t', '.', 'p', 'f']) State.init).1

/-- The six capability slots of a state are all null. -/
def State.capsAbsent (st : State) : Prop :=
  st.g_vk_dump_stats = false ∧ st.g_vk_get_desc = false ∧ st.g_vk_get_mem = false ∧
  st.g_vk_dump_timeline = false ∧ st.g_vk_dump_timeline_abs = false ∧
  st.g_vk_get_anchor_mono_ns = false

instance (st : State) : Decidable st.capsAbsent := by
  unfold State.capsAbsent; exact inferInstance

/-- The text of the one-time notice block (lines 251-257) for a resolved
state: the notice with the description, then the memory line when the
reported total is non-zero. -/
def noticeBlock (w : World) (st : State) : List Effect :=
  [Effect.print_notice (if st.g_vk_get_desc then (c_str w.vk_get_desc).take 255 else [])] ++
    (if (if st.g_vk_get_mem then w.vk_get_mem_total % U64 else 0) ≠ 0 then
      [Effect.print_memory (if st.g_vk_get_mem then w.vk_get_mem_total % U64 else 0)]
     else [])

/-! ## Vocabulary of the statements -/

/-- Every record the parse loops read from a scratch file: one per line that
holds two commas, in file order. -/
def parsedRecords (content : List Char) : List Entry :=
  (getlines content).filterMap parseLine

/-- The validity test of line 313: `e > s && s != 0`. -/
def Entry.valid (r : Entry) : Bool :=
  r.e > r.s && r.s ≠ 0

/-- The largest end among a list of records, 0 for none. -/
def maxEnd (rs : List Entry) : Nat :=
  rs.foldl (fun m r => max m r.e) 0

/-- The text of a well-formed interval line `start,end,name` with both
numbers written in decimal. -/
def recordLine (s e : Nat) (name : List Char) : List Char :=
  Nat.toDigits 10 s ++ ',' :: (Nat.toDigits 10 e ++ ',' :: name)

/-- The order in which `std::sort` leaves two events: `a` may stand before
`b` when the comparator does not put `b` before `a`. -/
abbrev evLe : Ev → Ev → Prop := fun a b => ¬ evLess b a

/-- The values the variable `active` takes in the scan loop, one after each
event, from the running count `active`. -/
def activeTrace : Int → List Ev → List Int
  | _, [] => []
  | active, ev :: rest => (active + ev.delta) :: activeTrace (active + ev.delta) rest

/-- The value of `active` when the scan loop ends. -/
def scanActive : Int → List Ev → Int
  | active, [] => active
  | active, ev :: rest => scanActive (active + ev.delta) rest

/-- A sample sequence alternates: its first sample reads `p`, the next
`100 - p`, and so on. -/
def Alternates : Nat → List Sample → Prop
  | _, [] => True
  | p, x :: xs => x.percent = p ∧ Alternates (100 - p) xs

/-- A world in which the relative-timeline dump is found, the absolute one
when `hasAbs` says so; both dumps succeed and leave the given scratch files,
no anchor is found, and the clocks read as given. -/
def worldTimeline (hasAbs : Bool) (absFile relFile : List Char) (trace mono late : Nat) :
    World :=
  { worldAbsent with
    dlsym_dump_timeline := true
    dlsym_dump_timeline_abs := hasAbs
    vk_dump_timeline_abs := fun _ => (true, some absFile)
    vk_dump_timeline := fun _ => (true, some relFile)
    trace_now := trace
    mono_now := mono
    trace_now_late := late }

/-- Timeline worlds whose scratch files are `5,15,a\n25,35,b\n` (absolute, trace
clock 0, monotonic clock 5) and `0,10,a\n20,30,b\n` (relative, anchored at 30):
both place the disjoint intervals `[0,10]` and `[20,30]`. -/
def worldDisjoint (hasAbs : Bool) : World :=
  worldTimeline hasAbs
    ['5', ',', '1', '5', ',', 'a', '\n', '2', '5', ',', '3', '5', ',', 'b', '\n']
    ['0', ',', '1', '0', ',', 'a', '\n', '2', '0', ',', '3', '0', ',', 'b', '\n']
    0 5 30

/-- Timeline worlds whose scratch files are `5,15,a\n10,20,b\n` (absolute, trace
clock 0, monotonic clock 5) and `0,10,a\n5,15,b\n` (relative, anchored at 15):
both place the overlapping intervals `[0,10]` and `[5,15]`. -/
def worldOverlap (hasAbs : Bool) : World :=
  worldTimeline hasAbs
    ['5', ',', '1', '5', ',', 'a', '\n', '1', '0', ',', '2', '0', ',', 'b', '\n']
    ['0', ',', '1', '0', ',', 'a', '\n', '5', ',', '1', '5', ',', 'b', '\n']
    0 5 15

/-- Timeline worlds whose scratch files are `5,15,a\n15,25,b\n` (absolute, trace
clock 0, monotonic clock 5) and `0,10,a\n10,20,b\n` (relative, anchored at 20):
both place the touching intervals `[0,10]` and `[10,20]`. -/
def worldTouching (hasAbs : Bool) : World :=
  worldTimeline hasAbs
    ['5', ',', '1', '5', ',', 'a', '\n', '1', '5', ',', '2', '5', ',', 'b', '\n']
    ['0', ',', '1', '0', ',', 'a', '\n', '1', '0', ',', '2', '0', ',', 'b', '\n']
    0 5 20

/-- Timeline worlds whose scratch files are `10,20,a\n5,15,b\n20,25,c\n35,45,d\n` (absolute, trace
clock 0, monotonic clock 5) and `5,15,a\n0,10,b\n15,20,c\n30,40,d\n` (relative, anchored at 40):
both place the intervals `[5,15]`, `[0,10]`, `[15,20]`, `[30,40]`. -/
def worldFour (hasAbs : Bool) : World :=
  worldTimeline hasAbs
    ['1', '0', ',', '2', '0', ',', 'a', '\n', '5', ',', '1', '5', ',', 'b', '\n', '2', '0',
     ',', '2', '5', ',', 'c', '\n', '3', '5', ',', '4', '5', ',', 'd', '\n']
    ['5', ',', '1', '5', ',', 'a', '\n', '0', ',', '1', '0', ',', 'b', '\n', '1', '5', ',',
     '2', '0', ',', 'c', '\n', '3', '0', ',', '4', '0', ',', 'd', '\n']
    0 5 40

/-- Timeline worlds whose scratch files are `5,9,mul\n0,3,a\n7,7,b\n9,8,c\n` (absolute, trace
clock 1000, monotonic clock 400) and `0,10,k\n7,3,j\n` (relative, anchored at 1000):
the absolute file holds one valid record and three invalid ones, the
relative file one record of positive and one of negative length. -/
def worldMixed (hasAbs : Bool) : World :=
  worldTimeline hasAbs
    ['5', ',', '9', ',', 'm', 'u', 'l', '\n', '0', ',', '3', ',', 'a', '\n', '7', ',', '7',
     ',', 'b', '\n', '9', ',', '8', ',', 'c', '\n']
    ['0', ',', '1', '0', ',', 'k', '\n', '7', ',', '3', ',', 'j', '\n']
    1000 400 1000

/-- What is said of the sample sequence of a scan over the placed intervals
`ivs`: it alternates from 100, opens with 100 at the least start, closes with
0 at the greatest end, and its timestamps never decrease. -/
def ScanInvariant (ivs : List Placed) (samples : List Sample) : Prop :=
  Alternates 100 samples ∧
    (∃ m, samples.head? = some { ts := m, percent := 100 } ∧
      (∃ iv ∈ ivs, iv.1 = m) ∧ ∀ iv ∈ ivs, m ≤ iv.1) ∧
    (∃ M, samples.getLast? = some { ts := M, percent := 0 } ∧
      (∃ iv ∈ ivs, iv.2 = M) ∧ ∀ iv ∈ ivs, iv.2 ≤ M) ∧
    (samples.map Sample.ts).Pairwise (· ≤ ·)

/-! ## Theorems -/

/-- Resolving the symbols twice is resolving them once. -/
theorem resolve_idem (w : World) (st : State) :
    llama_perfetto_resolve_vk_syms_once w (llama_perfetto_resolve_vk_syms_once w st) =
      llama_perfetto_resolve_vk_syms_once w st := by
  unfold llama_perfetto_resolve_vk_syms_once
  by_cases h : st.g_vk_syms_resolved <;> simp [h]

/-- A call with the stats slot null only resolves the symbols. -/
theorem print_absent_step (w : World) (st : State)
    (h : (llama_perfetto_resolve_vk_syms_once w st).g_vk_dump_stats = false) :
    llama_perfetto_print_gpu_stats w st = (llama_perfetto_resolve_vk_syms_once w st, []) := by
  simp [llama_perfetto_print_gpu_stats, h]

/-- Calls with the stats slot null have no effect. -/
theorem print_absent_times (w : World) (n : Nat) (st : State)
    (h : (llama_perfetto_resolve_vk_syms_once w st).g_vk_dump_stats = false) :
    (print_gpu_stats_times w n st).2 = [] := by
  induction n generalizing st with
  | zero => rfl
  | succ k ih =>
    simp only [print_gpu_stats_times, print_absent_step w st h, List.nil_append]
    exact ih _ (by rw [resolve_idem]; exact h)

/-- Once warned, calls with a failing dump write nothing. -/
theorem print_warned_times (w : World) (n : Nat) (st : State)
    (hd : (llama_perfetto_resolve_vk_syms_once w st).g_vk_dump_stats = true)
    (hf : ∀ p, (w.vk_dump_stats p).1 = false) (hw : st.warned = true) :
    stdoutOf (print_gpu_stats_times w n st).2 = [] := by
  induction n generalizing st with
  | zero => rfl
  | succ k ih =>
    have hw1 : (llama_perfetto_resolve_vk_syms_once w st).warned = true := by
      unfold llama_perfetto_resolve_vk_syms_once
      by_cases hr : st.g_vk_syms_resolved = true <;> simp [hr, hw]
    have step : llama_perfetto_print_gpu_stats w st =
        (llama_perfetto_resolve_vk_syms_once w st,
          [Effect.dump_stats (llama_perfetto_tmp_stats_path w
            (llama_perfetto_resolve_vk_syms_once w st))]) := by
      unfold llama_perfetto_print_gpu_stats
      simp [hd, hw1, hf]
    simp only [print_gpu_stats_times, step]
    have := ih (llama_perfetto_resolve_vk_syms_once w st) (by rw [resolve_idem]; exact hd) hw1
    simpa [stdoutOf] using this

/-- The first failing call of a state that has not warned writes the notice block. -/
theorem print_first_notice (w : World) (st : State)
    (hd : (llama_perfetto_resolve_vk_syms_once w st).g_vk_dump_stats = true)
    (hf : ∀ p, (w.vk_dump_stats p).1 = false) (hw : st.warned = false) :
    stdoutOf (llama_perfetto_print_gpu_stats w st).2 =
        noticeBlock w (llama_perfetto_resolve_vk_syms_once w st) ∧
      (llama_perfetto_print_gpu_stats w st).1 =
        { llama_perfetto_resolve_vk_syms_once w st with warned := true } := by
  have hw1 : (llama_perfetto_resolve_vk_syms_once w st).warned = false := by
    unfold llama_perfetto_resolve_vk_syms_once
    by_cases hr : st.g_vk_syms_resolved = true <;> simp [hr, hw]
  unfold llama_perfetto_print_gpu_stats noticeBlock
  simp only [hd, hw1, hf, Bool.not_true, Bool.not_false, Bool.false_eq_true, if_false, if_true]
  constructor
  · split <;> split <;> simp_all [stdoutOf] <;> split <;> simp [stdoutOf]
  · trivial

/-- The `stdout` part of a concatenation. -/
theorem stdoutOf_append (a b : List Effect) : stdoutOf (a ++ b) = stdoutOf a ++ stdoutOf b := by
  induction a with
  | nil => rfl
  | cons x xs ih => cases x <;> simp [stdoutOf, ih]

/-- The spans of a concatenation. -/
theorem spansOf_append (a b : List Effect) : spansOf (a ++ b) = spansOf a ++ spansOf b := by
  induction a with
  | nil => rfl
  | cons x xs ih => cases x <;> simp [spansOf, ih]

/-- The spans of a list of span effects. -/
theorem spansOf_map_span (l : List Span) : spansOf (l.map Effect.span) = l := by
  induction l with
  | nil => rfl
  | cons x xs ih => simp [spansOf, ih]

/-- Counter effects hold no span. -/
theorem spansOf_map_counter (l : List Sample) : spansOf (l.map Effect.counter) = [] := by
  induction l with
  | nil => rfl
  | cons x xs ih => simp [spansOf, ih]

/-- The spans and the flag of Path A once its dump is read. -/
theorem emitAbs_read (w : World) (st : State) (content : List Char)
    (ha : st.g_vk_dump_timeline_abs = true)
    (hd : w.vk_dump_timeline_abs
        (replaceTail (llama_perfetto_tmp_stats_path w st) vktimeline_abs) = (true, some content)) :
    spansOf (emitAbs w st).2.1 = (parseAbs (getlines content)).map (placeAbs (clockOffset w)) ∧
      (emitAbs w st).2.2 = !(parseAbs (getlines content)).isEmpty := by
  unfold emitAbs
  simp only [ha, if_true, hd]
  cases hp : parseAbs (getlines content) with
  | nil => simp [spansOf]
  | cons r rs =>
    simp only [List.isEmpty_cons, Bool.not_false, if_true]
    refine ⟨?_, trivial⟩
    rw [spansOf_append, spansOf_append, spansOf_append, spansOf_map_span, spansOf_map_counter]
    by_cases hda : st.desc_abs = true <;> simp [hda, spansOf]

/-- C7 (amended).  With all six capability slots null after resolution,
any number of calls of `print_gpu_stats` has no effect at all: no notice is
written.  The one-time notice belongs to the case where the stats dump is
found and reports failure: then, from a state that has not warned, `n >= 1`
calls write the notice block exactly once, in the first call. -/
theorem print_gpu_stats_degradation (w : World) (n : Nat) (st : State) :
    ((llama_perfetto_resolve_vk_syms_once w st).capsAbsent →
        (print_gpu_stats_times w n st).2 = []) ∧
      ((llama_perfetto_resolve_vk_syms_once w st).g_vk_dump_stats = true →
        (∀ p, (w.vk_dump_stats p).1 = false) → st.warned = false → 1 ≤ n →
        stdoutOf (print_gpu_stats_times w n st).2 =
            noticeBlock w (llama_perfetto_resolve_vk_syms_once w st) ∧
          stdoutOf (llama_perfetto_print_gpu_stats w st).2 =
            noticeBlock w (llama_perfetto_resolve_vk_syms_once w st) ∧
          stdoutOf (print_gpu_stats_times w (n - 1)
            (llama_perfetto_print_gpu_stats w st).1).2 = []) := by
  constructor
  · intro h
    exact print_absent_times w n st h.1
  · intro hd hf hw hn
    obtain ⟨h1, h2⟩ := print_first_notice w st hd hf hw
    have h3 : stdoutOf (print_gpu_stats_times w (n - 1)
        (llama_perfetto_print_gpu_stats w st).1).2 = [] := by
      apply print_warned_times w (n - 1) _ _ hf
      · rw [h2]
      · rw [h2]
        unfold llama_perfetto_resolve_vk_syms_once at hd ⊢
        by_cases hr : st.g_vk_syms_resolved = true <;> simp [hr] at hd ⊢ <;> exact hd
    refine ⟨?_, h1, h3⟩
    obtain ⟨k, rfl⟩ : ∃ k, n = k + 1 := ⟨n - 1, by omega⟩
    simp only [print_gpu_stats_times, stdoutOf_append, h1]
    simp only [Nat.add_sub_cancel] at h3
    rw [h3, List.append_nil]

/-- C7, witness: three calls with nothing found, and three calls with only
the failing stats dump found. -/
theorem print_gpu_stats_degradation_witness :
    (print_gpu_stats_times worldAbsent 3 State.init).2 = [] ∧
      (stdoutOf (print_gpu_stats_times worldStatsFail 3 State.init).2 =
            noticeBlock worldStatsFail
              (llama_perfetto_resolve_vk_syms_once worldStatsFail State.init) ∧
          stdoutOf (llama_perfetto_print_gpu_stats worldStatsFail State.init).2 =
            noticeBlock worldStatsFail
              (llama_perfetto_resolve_vk_syms_once worldStatsFail State.init) ∧
          stdoutOf (print_gpu_stats_times worldStatsFail (3 - 1)
            (llama_perfetto_print_gpu_stats worldStatsFail State.init).1).2 = []) :=
  ⟨(print_gpu_stats_degradation worldAbsent 3 State.init).1 (by decide),
   (print_gpu_stats_degradation worldStatsFail 3 State.init).2 (by decide)
     (fun _ => rfl) (by decide) (by decide)⟩

/-- C7, counterexample.  With all six lookups failing, one call from the
initial state writes nothing: there is no notice among its effects. -/
theorem print_gpu_stats_degradation_counterexample :
    (llama_perfetto_resolve_vk_syms_once worldAbsent State.init).capsAbsent ∧
      stdoutOf (print_gpu_stats_times worldAbsent 1 State.init).2 = [] ∧
      ¬ ∃ d, Effect.print_notice d ∈ (print_gpu_stats_times worldAbsent 1 State.init).2 := by
  refine ⟨by decide, by decide, ?_⟩
  have h : (print_gpu_stats_times worldAbsent 1 State.init).2 = [] := by decide
  rw [h]
  simp

/-- C10 (amended).  Gating of `emit_gpu_timeline`.  Nothing happens with
no session; nothing is emitted when the relative-timeline slot is null,
whatever the absolute one is.  With a session, both slots set and the
absolute dump read with at least one valid record, exactly the Path A spans
are emitted and Path B does not run.  With a session, the relative slot set
and the absolute one null, the call is Path B. -/
theorem emit_gpu_timeline_gating (w : World) (st : State) :
    (st.g_session = false → llama_perfetto_emit_gpu_timeline w st = (st, [])) ∧
      ((llama_perfetto_resolve_vk_syms_once w st).g_vk_dump_timeline = false →
        (llama_perfetto_emit_gpu_timeline w st).2 = []) ∧
      (∀ content, st.g_session = true →
        (llama_perfetto_resolve_vk_syms_once w st).g_vk_dump_timeline = true →
        (llama_perfetto_resolve_vk_syms_once w st).g_vk_dump_timeline_abs = true →
        w.vk_dump_timeline_abs (replaceTail (llama_perfetto_tmp_stats_path w
          (llama_perfetto_resolve_vk_syms_once w st)) vktimeline_abs) = (true, some content) →
        parseAbs (getlines content) ≠ [] →
        spansOf (llama_perfetto_emit_gpu_timeline w st).2 =
            (parseAbs (getlines content)).map (placeAbs (clockOffset w)) ∧
          spansOf (llama_perfetto_emit_gpu_timeline w st).2 ≠ [] ∧
          (llama_perfetto_emit_gpu_timeline w st).2 =
            (emitAbs w (llama_perfetto_resolve_vk_syms_once w st)).2.1) ∧
      (st.g_session = true →
        (llama_perfetto_resolve_vk_syms_once w st).g_vk_dump_timeline = true →
        (llama_perfetto_resolve_vk_syms_once w st).g_vk_dump_timeline_abs = false →
        llama_perfetto_emit_gpu_timeline w st =
          emitRel w (llama_perfetto_resolve_vk_syms_once w st)) := by
  refine ⟨?_, ?_, ?_, ?_⟩
  · intro h
    simp [llama_perfetto_emit_gpu_timeline, h]
  · intro h
    unfold llama_perfetto_emit_gpu_timeline
    by_cases hs : st.g_session = true <;> simp [hs, h]
  · intro content hs hr ha hd hne
    obtain ⟨h1, h2⟩ := emitAbs_read w _ content ha hd
    have hem : (emitAbs w (llama_perfetto_resolve_vk_syms_once w st)).2.2 = true := by
      rw [h2]
      cases hp : parseAbs (getlines content) with
      | nil => exact absurd hp hne
      | cons r rs => rfl
    have e : (llama_perfetto_emit_gpu_timeline w st).2 =
        (emitAbs w (llama_perfetto_resolve_vk_syms_once w st)).2.1 := by
      unfold llama_perfetto_emit_gpu_timeline
      simp [hs, hr, hem]
    refine ⟨by rw [e, h1], ?_, e⟩
    rw [e, h1]
    simpa using hne
  · intro hs hr ha
    unfold llama_perfetto_emit_gpu_timeline
    simp [hs, hr, emitAbs, ha]

/-- C10, witness: no session; absolute only; both; relative only. -/
theorem emit_gpu_timeline_gating_witness :
    llama_perfetto_emit_gpu_timeline worldAbsent State.init = (State.init, []) ∧
      (llama_perfetto_emit_gpu_timeline worldAbsOnly stateOpen).2 = [] ∧
      (spansOf (llama_perfetto_emit_gpu_timeline worldBoth stateOpen).2 =
            (parseAbs (getlines ['5', ',', '9', ',', 'm', 'u', 'l', '\n'])).map
              (placeAbs (clockOffset worldBoth)) ∧
          spansOf (llama_perfetto_emit_gpu_timeline worldBoth stateOpen).2 ≠ [] ∧
          (llama_perfetto_emit_gpu_timeline worldBoth stateOpen).2 =
            (emitAbs worldBoth (llama_perfetto_resolve_vk_syms_once worldBoth stateOpen)).2.1) ∧
      llama_perfetto_emit_gpu_timeline worldRelOnly stateOpen =
        emitRel worldRelOnly (llama_perfetto_resolve_vk_syms_once worldRelOnly stateOpen) :=
  ⟨(emit_gpu_timeline_gating worldAbsent State.init).1 (by decide),
   (emit_gpu_timeline_gating worldAbsOnly stateOpen).2.1 (by decide),
   (emit_gpu_timeline_gating worldBoth stateOpen).2.2.1 _ (by decide) (by decide) (by decide)
     rfl (by decide),
   (emit_gpu_timeline_gating worldRelOnly stateOpen).2.2.2 (by decide) (by decide) (by decide)⟩

/-- C10, counterexample.  A session is open, the absolute-timeline dump is
found and yields the valid record `5,9,mul`, the relative one is not found:
Path A alone would emit the span, the call emits nothing. -/
theorem emit_gpu_timeline_gating_counterexample :
    stateOpen.g_session = true ∧
      (llama_perfetto_resolve_vk_syms_once worldAbsOnly stateOpen).g_vk_dump_timeline_abs = true ∧
      (llama_perfetto_resolve_vk_syms_once worldAbsOnly stateOpen).g_vk_dump_timeline = false ∧
      parseAbs (getlines ['5', ',', '9', ',', 'm', 'u', 'l', '\n']) = [⟨['m', 'u', 'l'], 5, 9⟩] ∧
      spansOf (emitAbs worldAbsOnly
        (llama_perfetto_resolve_vk_syms_once worldAbsOnly stateOpen)).2.1 =
          [⟨['m', 'u', 'l'], 605, 609⟩] ∧
      (llama_perfetto_emit_gpu_timeline worldAbsOnly stateOpen).2 = [] := by
  decide

/-- The samples of the scan over two disjoint and over two overlapping intervals. -/
theorem occupancy_pair (a b c d : Nat) :
    (a < b → b < c → c < d →
      occupancy (eventsAbs [(a, b), (c, d)]) = [⟨a, 100⟩, ⟨b, 0⟩, ⟨c, 100⟩, ⟨d, 0⟩] ∧
      occupancy (eventsAbs [(c, d), (a, b)]) = [⟨a, 100⟩, ⟨b, 0⟩, ⟨c, 100⟩, ⟨d, 0⟩] ∧
      occupancy (eventsRel [(a, b), (c, d)]) = [⟨a, 100⟩, ⟨b, 0⟩, ⟨c, 100⟩, ⟨d, 0⟩] ∧
      occupancy (eventsRel [(c, d), (a, b)]) = [⟨a, 100⟩, ⟨b, 0⟩, ⟨c, 100⟩, ⟨d, 0⟩]) ∧
    (a < c → c < b → b < d →
      occupancy (eventsAbs [(a, b), (c, d)]) = [⟨a, 100⟩, ⟨d, 0⟩] ∧
      occupancy (eventsAbs [(c, d), (a, b)]) = [⟨a, 100⟩, ⟨d, 0⟩] ∧
      occupancy (eventsRel [(a, b), (c, d)]) = [⟨a, 100⟩, ⟨d, 0⟩] ∧
      occupancy (eventsRel [(c, d), (a, b)]) = [⟨a, 100⟩, ⟨d, 0⟩]) := by
  constructor
  · intro h1 h2 h3
    have hab : ¬ b < a := by omega
    have hac : ¬ c < a := by omega
    have had : ¬ d < a := by omega
    have hbc : ¬ c < b := by omega
    have hbd : ¬ d < b := by omega
    have hcd : ¬ d < c := by omega
    have e1 : a ≠ b := by omega
    have e2 : a ≠ c := by omega
    have e3 : a ≠ d := by omega
    have e4 : b ≠ c := by omega
    have e5 : b ≠ d := by omega
    have e6 : c ≠ d := by omega
    have h4 : a < c := by omega
    have h5 : a < d := by omega
    have h6 : b < d := by omega
    simp [occupancy, eventsAbs, eventsRel, sortEvs, List.insertionSort, List.orderedInsert,
      evLess, scan, *, Ne.symm e1, Ne.symm e2, Ne.symm e3, Ne.symm e4, Ne.symm e5, Ne.symm e6]
  · intro h1 h2 h3
    have hab : ¬ b < a := by omega
    have hac : ¬ c < a := by omega
    have had : ¬ d < a := by omega
    have hbc : ¬ b < c := by omega
    have hbd : ¬ d < b := by omega
    have hcd : ¬ d < c := by omega
    have e1 : a ≠ b := by omega
    have e2 : a ≠ c := by omega
    have e3 : a ≠ d := by omega
    have e4 : b ≠ c := by omega
    have e5 : b ≠ d := by omega
    have e6 : c ≠ d := by omega
    have h4 : a < b := by omega
    have h5 : a < d := by omega
    have h6 : c < d := by omega
    simp [occupancy, eventsAbs, eventsRel, sortEvs, List.insertionSort, List.orderedInsert,
      evLess, scan, *, Ne.symm e1, Ne.symm e2, Ne.symm e3, Ne.symm e4, Ne.symm e5, Ne.symm e6]

/-- C5.  Idempotent start.  After `start_trace(p1)` with `p1` non-empty, from
any state, a session is open and a second `start_trace(p2)` changes nothing
and has no effect at all: no file is opened, no thread is spawned.  When the
first call starts from a closed state, the session it leaves is bound to `p1`
and to the descriptor opened for `p1`, and the call opens that one file and
spawns one flush thread. -/
theorem start_trace_idempotent (w : World) (p1 p2 : List Char) (st : State)
    (hp1 : p1 ≠ []) (_hp2 : p2 ≠ []) :
    llama_perfetto_start_trace w (some p2) (llama_perfetto_start_trace w (some p1) st).1 =
        ((llama_perfetto_start_trace w (some p1) st).1, []) ∧
      (llama_perfetto_start_trace w (some p1) st).1.g_session = true ∧
      (st.g_session = false → st.g_flush_thread = false →
        (llama_perfetto_start_trace w (some p1) st).1.session =
            { session := true, flush_stop := false, flush_thread := true,
              fd := w.sys_open p1, path := p1 } ∧
          (llama_perfetto_start_trace w (some p2)
              (llama_perfetto_start_trace w (some p1) st).1).1.session =
            { session := true, flush_stop := false, flush_thread := true,
              fd := w.sys_open p1, path := p1 } ∧
          (llama_perfetto_start_trace w (some p1) st).2 =
            (llama_perfetto_init_once st).2 ++
              [Effect.open_file p1 (w.sys_open p1), Effect.session_setup (w.sys_open p1),
               Effect.start_blocking, Effect.spawn_flusher] ∧
          (∀ e ∈ (llama_perfetto_init_once st).2, e = Effect.tracing_initialize)) := by
  have hne : p1.isEmpty = false := by
    cases p1 with
    | nil => exact absurd rfl hp1
    | cons c cs => rfl
  have hopen : (llama_perfetto_start_trace w (some p1) st).1.g_session = true := by
    by_cases hs : st.g_session = true
    · simp [llama_perfetto_start_trace, hs]
    · simp [llama_perfetto_start_trace, hs, hne]
  have hidem : llama_perfetto_start_trace w (some p2)
      (llama_perfetto_start_trace w (some p1) st).1 =
        ((llama_perfetto_start_trace w (some p1) st).1, []) := by
    generalize llama_perfetto_start_trace w (some p1) st = r at hopen
    simp [llama_perfetto_start_trace, hopen]
  refine ⟨hidem, hopen, ?_⟩
  intro hs _
  have hfirst : (llama_perfetto_start_trace w (some p1) st).1.session =
      { session := true, flush_stop := false, flush_thread := true,
        fd := w.sys_open p1, path := p1 } := by
    simp [llama_perfetto_start_trace, hs, hne, State.session]
  refine ⟨hfirst, by rw [hidem]; exact hfirst, ?_, ?_⟩
  · simp [llama_perfetto_start_trace, hs, hne]
  · intro e he
    unfold llama_perfetto_init_once at he
    by_cases hi : st.initialized <;> simp [hi] at he
    exact he

/-- C5, witness: paths `a` then `b` from the initial state. -/
theorem start_trace_idempotent_witness :
    llama_perfetto_start_trace worldAbsent (some ['b'])
        (llama_perfetto_start_trace worldAbsent (some ['a']) State.init).1 =
        ((llama_perfetto_start_trace worldAbsent (some ['a']) State.init).1, []) ∧
      (llama_perfetto_start_trace worldAbsent (some ['b'])
          (llama_perfetto_start_trace worldAbsent (some ['a']) State.init).1).1.session =
        { session := true, flush_stop := false, flush_thread := true,
          fd := worldAbsent.sys_open ['a'], path := ['a'] } :=
  ⟨(start_trace_idempotent worldAbsent ['a'] ['b'] State.init (by decide) (by decide)).1,
   ((start_trace_idempotent worldAbsent ['a'] ['b'] State.init (by decide) (by decide)).2.2
      (by decide) (by decide)).2.1⟩

/-- The state after `stop_flush`, in closed form. -/
theorem stop_flush_state (w : World) (st : State) :
    (llama_perfetto_stop_flush w st).1 =
      llama_perfetto_resolve_vk_syms_once w
        { st with g_flush_stop := true, g_flush_thread := false, g_session := false,
                  g_trace_fd := -1 } := by
  obtain ⟨i, s, fs, ft, fd, p, r, c1, c2, c3, c4, c5, c6, wn, da, dr⟩ := st
  unfold llama_perfetto_stop_flush
  by_cases h1 : ft = true <;> by_cases h2 : s = true <;> by_cases h3 : fd = -1 <;>
    simp [h1, h2, h3]

/-- C6.  Idempotent stop.  On a state that is closed (no session, no
joinable thread, descriptor -1, stop flag set) `stop_flush` leaves the session
part unchanged: the state changes at most by the symbol resolution.  From
every state a second `stop_flush` gives the state of the first, and after any
`stop_flush` there is no session, the descriptor is -1, the thread is joined
and the stop flag is set. -/
theorem stop_flush_idempotent (w : World) (st : State) :
    (st.g_session = false → st.g_flush_thread = false → st.g_trace_fd = -1 →
        st.g_flush_stop = true →
        (llama_perfetto_stop_flush w st).1.session = st.session ∧
        (llama_perfetto_stop_flush w st).1 = llama_perfetto_resolve_vk_syms_once w st) ∧
      (llama_perfetto_stop_flush w (llama_perfetto_stop_flush w st).1).1 =
        (llama_perfetto_stop_flush w st).1 ∧
      (llama_perfetto_stop_flush w (llama_perfetto_stop_flush w st).1).1.session =
        (llama_perfetto_stop_flush w st).1.session ∧
      (llama_perfetto_stop_flush w st).1.session =
        { session := false, flush_stop := true, flush_thread := false, fd := -1,
          path := st.g_trace_path } := by
  have key : (llama_perfetto_stop_flush w (llama_perfetto_stop_flush w st).1).1 =
      (llama_perfetto_stop_flush w st).1 := by
    rw [stop_flush_state w (llama_perfetto_stop_flush w st).1, stop_flush_state w st]
    obtain ⟨i, s, fs, ft, fd, p, r, c1, c2, c3, c4, c5, c6, wn, da, dr⟩ := st
    unfold llama_perfetto_resolve_vk_syms_once
    by_cases hr : r = true <;> simp [hr]
  refine ⟨?_, key, by rw [key], ?_⟩
  · intro h1 h2 h3 h4
    have e : (llama_perfetto_stop_flush w st).1 = llama_perfetto_resolve_vk_syms_once w st := by
      rw [stop_flush_state]
      obtain ⟨i, s, fs, ft, fd, p, r, c1, c2, c3, c4, c5, c6, wn, da, dr⟩ := st
      simp only at h1 h2 h3 h4
      subst h1 h2 h3 h4
      rfl
    refine ⟨?_, e⟩
    rw [e]
    unfold llama_perfetto_resolve_vk_syms_once State.session
    by_cases hr : st.g_vk_syms_resolved = true <;> simp [hr]
  · rw [stop_flush_state]
    unfold llama_perfetto_resolve_vk_syms_once State.session
    by_cases hr : st.g_vk_syms_resolved = true <;> simp [hr]

/-- C6, witness: `stop_flush` at process start. -/
theorem stop_flush_idempotent_witness :
    (llama_perfetto_stop_flush worldAbsent State.init).1.session = State.init.session ∧
      (llama_perfetto_stop_flush worldAbsent State.init).1 =
        llama_perfetto_resolve_vk_syms_once worldAbsent State.init :=
  (stop_flush_idempotent worldAbsent State.init).1 (by decide) (by decide) (by decide)
    (by decide)

/-- The Path A loop keeps exactly the valid parsed records. -/
theorem parseAbs_eq (lines : List (List Char)) :
    parseAbs lines = (lines.filterMap parseLine).filter Entry.valid := by
  induction lines with
  | nil => rfl
  | cons l ls ih =>
    unfold parseAbs
    cases h : parseLine l with
    | none => simp [List.filterMap_cons, h, ih]
    | some r =>
      by_cases hv : r.valid = true
      · have hv2 : r.s < r.e ∧ ¬ r.s = 0 := by simpa [Entry.valid] using hv
        simp [List.filterMap_cons, h, ih, hv, hv2]
      · have hv2 : r.s < r.e → r.s = 0 := by simpa [Entry.valid] using hv
        simp [List.filterMap_cons, h, ih, hv]
        exact hv2

/-- The Path B loop keeps every parsed record and folds `max` over the ends. -/
theorem parseRel_eq (lines : List (List Char)) (span : Nat) :
    parseRel lines span =
      (lines.filterMap parseLine,
        (lines.filterMap parseLine).foldl (fun m r => max m r.e) span) := by
  induction lines generalizing span with
  | nil => rfl
  | cons l ls ih =>
    unfold parseRel
    cases h : parseLine l with
    | none => simp [List.filterMap_cons, h, ih]
    | some r =>
      have hm : (if r.e > span then r.e else span) = max span r.e := by
        by_cases hc : r.e > span
        · simp [hc]; omega
        · simp [hc]; omega
      simp [List.filterMap_cons, h, ih, hm]

/-- The Path B loop on a file, in the vocabulary of the statements. -/
theorem parseRel_content (content : List Char) :
    parseRel (getlines content) 0 = (parsedRecords content, maxEnd (parsedRecords content)) := by
  rw [parseRel_eq]; rfl

/-- The fold of `max` bounds its seed and every end. -/
theorem foldl_max_ge (rs : List Entry) (m : Nat) :
    m ≤ rs.foldl (fun m r => max m r.e) m ∧
      ∀ r ∈ rs, r.e ≤ rs.foldl (fun m r => max m r.e) m := by
  induction rs generalizing m with
  | nil => simp
  | cons x xs ih =>
    simp only [List.foldl_cons, List.mem_cons]
    obtain ⟨h1, h2⟩ := ih (max m x.e)
    refine ⟨le_trans (le_max_left _ _) h1, ?_⟩
    intro r hr
    rcases hr with rfl | hr
    · exact le_trans (le_max_right _ _) h1
    · exact h2 r hr

/-- The fold of `max` is its seed or the end of some record. -/
theorem foldl_max_attained (rs : List Entry) (m : Nat) :
    rs.foldl (fun m r => max m r.e) m = m ∨
      ∃ r ∈ rs, r.e = rs.foldl (fun m r => max m r.e) m := by
  induction rs generalizing m with
  | nil => simp
  | cons x xs ih =>
    simp only [List.foldl_cons]
    rcases ih (max m x.e) with h | ⟨r, hr, he⟩
    · rw [h]
      rcases Nat.le_total m x.e with hle | hle
      · right; exact ⟨x, List.mem_cons_self _ _, by rw [max_eq_right hle]⟩
      · left; rw [max_eq_left hle]
    · right; exact ⟨r, List.mem_cons_of_mem _ hr, he⟩

/-- No end exceeds `maxEnd`. -/
theorem maxEnd_ge (rs : List Entry) : ∀ r ∈ rs, r.e ≤ maxEnd rs :=
  (foldl_max_ge rs 0).2

/-- A non-zero `maxEnd` is the end of some record. -/
theorem maxEnd_attained (rs : List Entry) (h : maxEnd rs ≠ 0) : ∃ r ∈ rs, r.e = maxEnd rs := by
  rcases foldl_max_attained rs 0 with h0 | h1
  · exact absurd h0 h
  · exact h1

/-- The spans of Path B once its dump is read. -/
theorem emitRel_read (w : World) (st : State) (content : List Char)
    (hd : w.vk_dump_timeline
        (replaceTail (llama_perfetto_tmp_stats_path w st) vktimeline) = (true, some content)) :
    spansOf (emitRel w st).2 =
      if maxEnd (parsedRecords content) = 0 then []
      else (parsedRecords content).map
        (placeRel (relNow w st) (maxEnd (parsedRecords content))) := by
  unfold emitRel
  simp only [hd, parseRel_content]
  by_cases h0 : maxEnd (parsedRecords content) = 0
  · simp [h0, spansOf]
  · have hne : (parsedRecords content).isEmpty = false := by
      obtain ⟨r, hr, _⟩ := maxEnd_attained _ h0
      cases hp : parsedRecords content with
      | nil => rw [hp] at hr; exact absurd hr (List.not_mem_nil _)
      | cons a b => rfl
    simp only [hne, h0, Bool.not_true, Bool.false_or, decide_False, Bool.false_eq_true, if_false]
    rw [spansOf_append, spansOf_append, spansOf_append, spansOf_map_span, spansOf_map_counter]
    by_cases hda : st.desc_rel = true <;> simp [hda, spansOf]

/-- Wrapping to `int64_t` keeps the residue modulo `2^64`. -/
theorem wrapInt64_emod (x : Int) : wrapInt64 x % (U64 : Int) = x % (U64 : Int) := by
  unfold wrapInt64 U64
  push_cast
  omega

/-- A wrapped value lies in the `int64_t` range. -/
theorem wrapInt64_bounds (x : Int) : -(2 : Int) ^ 63 ≤ wrapInt64 x ∧ wrapInt64 x < 2 ^ 63 := by
  unfold wrapInt64 U64
  push_cast
  omega

/-- The cast to `int64_t` keeps the residue modulo `2^64`. -/
theorem toInt64_emod (n : Nat) : toInt64 n % (U64 : Int) = (n : Int) % (U64 : Int) := by
  unfold toInt64
  split
  · simp [Int.emod_emod_of_dvd]
  · simp [Int.emod_emod_of_dvd]

/-- Casting a wrapped value back to `uint64_t`. -/
theorem toUInt64_wrapInt64 (x : Int) : toUInt64 (wrapInt64 x) = toUInt64 x := by
  unfold toUInt64
  rw [wrapInt64_emod]

/-- The Path A placement of one timestamp as a residue modulo `2^64`. -/
theorem placeAbs_align (w : World) (x : Nat) :
    toUInt64 (wrapInt64 (toInt64 x + clockOffset w)) =
      (((x : Int) + (((w.trace_now % U64 : Nat) : Int) - ((w.mono_now % U64 : Nat) : Int)))
        % (2 : Int) ^ 64).toNat := by
  rw [toUInt64_wrapInt64]
  unfold toUInt64 clockOffset
  have hU : (U64 : Int) = (2 : Int) ^ 64 := by simp [U64]
  rw [← hU]
  congr 1
  rw [Int.add_emod, wrapInt64_emod, Int.sub_emod, toInt64_emod, toInt64_emod, toInt64_emod]
  rw [← Int.sub_emod, ← Int.add_emod]

/-- The offset is the plain difference when that fits `int64_t`. -/
theorem clockOffset_exact (w : World) (hT : w.trace_now < 2 ^ 64) (hM : w.mono_now < 2 ^ 64)
    (hlo : -(2 : Int) ^ 63 ≤ (w.trace_now : Int) - (w.mono_now : Int))
    (hhi : (w.trace_now : Int) - (w.mono_now : Int) < 2 ^ 63) :
    clockOffset w = (w.trace_now : Int) - (w.mono_now : Int) := by
  unfold clockOffset wrapInt64 toInt64 U64
  have e1 : w.trace_now % 2 ^ 64 = w.trace_now := Nat.mod_eq_of_lt hT
  have e2 : w.mono_now % 2 ^ 64 = w.mono_now := Nat.mod_eq_of_lt hM
  simp only [e1, e2, Nat.mod_mod]
  push_cast
  split <;> split <;> omega

/-- C4.  Clock alignment of Path A.  With `T = trace_now` and
`M = mono_now` the two samples of the pass, every valid record `(s,e)` of the
absolute dump is emitted as `[s + (T - M), e + (T - M)]` modulo `2^64`, one
offset for the whole pass; the offset the code holds lies in the `int64_t`
range and equals `T - M` whenever that difference does. -/
theorem clock_alignment (w : World) (st : State) (content : List Char)
    (hT : w.trace_now < 2 ^ 64) (hM : w.mono_now < 2 ^ 64)
    (ha : st.g_vk_dump_timeline_abs = true)
    (hd : w.vk_dump_timeline_abs
        (replaceTail (llama_perfetto_tmp_stats_path w st) vktimeline_abs) = (true, some content)) :
    spansOf (emitAbs w st).2.1 =
        ((parsedRecords content).filter Entry.valid).map (fun r =>
          { name := c_str r.name,
            start_ns :=
              (((r.s : Int) + ((w.trace_now : Int) - (w.mono_now : Int))) % (2 : Int) ^ 64).toNat,
            end_ns :=
              (((r.e : Int) + ((w.trace_now : Int) - (w.mono_now : Int))) % (2 : Int) ^ 64).toNat }) ∧
      (-(2 : Int) ^ 63 ≤ clockOffset w ∧ clockOffset w < 2 ^ 63) ∧
      (-(2 : Int) ^ 63 ≤ (w.trace_now : Int) - (w.mono_now : Int) →
        (w.trace_now : Int) - (w.mono_now : Int) < 2 ^ 63 →
        clockOffset w = (w.trace_now : Int) - (w.mono_now : Int)) := by
  refine ⟨?_, wrapInt64_bounds _, clockOffset_exact w hT hM⟩
  rw [(emitAbs_read w st content ha hd).1, parseAbs_eq]
  apply List.map_congr_left
  intro r _
  have e1 : w.trace_now % U64 = w.trace_now := Nat.mod_eq_of_lt hT
  have e2 : w.mono_now % U64 = w.mono_now := Nat.mod_eq_of_lt hM
  have h1 := placeAbs_align w r.s
  have h2 := placeAbs_align w r.e
  rw [e1, e2] at h1 h2
  simp only [placeAbs, h1, h2]

/-- C4, witness: the file `5,9,mul` with `T = 1000`, `M = 400`. -/
theorem clock_alignment_witness :
    spansOf (emitAbs worldBoth (llama_perfetto_resolve_vk_syms_once worldBoth stateOpen)).2.1 =
        ((parsedRecords ['5', ',', '9', ',', 'm', 'u', 'l', '\n']).filter Entry.valid).map
          (fun r =>
          { name := c_str r.name,
            start_ns :=
              (((r.s : Int) + ((worldBoth.trace_now : Int) - (worldBoth.mono_now : Int)))
                % (2 : Int) ^ 64).toNat,
            end_ns :=
              (((r.e : Int) + ((worldBoth.trace_now : Int) - (worldBoth.mono_now : Int)))
                % (2 : Int) ^ 64).toNat }) ∧
      (-(2 : Int) ^ 63 ≤ clockOffset worldBoth ∧ clockOffset worldBoth < 2 ^ 63) ∧
      (-(2 : Int) ^ 63 ≤ (worldBoth.trace_now : Int) - (worldBoth.mono_now : Int) →
        (worldBoth.trace_now : Int) - (worldBoth.mono_now : Int) < 2 ^ 63 →
        clockOffset worldBoth = (worldBoth.trace_now : Int) - (worldBoth.mono_now : Int)) :=
  clock_alignment worldBoth (llama_perfetto_resolve_vk_syms_once worldBoth stateOpen)
    ['5', ',', '9', ',', 'm', 'u', 'l', '\n'] (by decide) (by decide) (by decide) rfl

/-- The spans of the two paths once their dump is read: Path A places the valid
parsed records, Path B every parsed record. -/
theorem record_spans (w : World) (st : State) (content : List Char) :
    (st.g_vk_dump_timeline_abs = true →
        w.vk_dump_timeline_abs
          (replaceTail (llama_perfetto_tmp_stats_path w st) vktimeline_abs) = (true, some content) →
        spansOf (emitAbs w st).2.1 =
          ((parsedRecords content).filter Entry.valid).map (placeAbs (clockOffset w))) ∧
      (w.vk_dump_timeline
          (replaceTail (llama_perfetto_tmp_stats_path w st) vktimeline) = (true, some content) →
        maxEnd (parsedRecords content) ≠ 0 →
        spansOf (emitRel w st).2 =
          (parsedRecords content).map
            (placeRel (relNow w st) (maxEnd (parsedRecords content)))) := by
  constructor
  · intro ha hd
    rw [(emitAbs_read w st content ha hd).1, parseAbs_eq]
    rfl
  · intro hd h0
    rw [emitRel_read w st content hd, if_neg h0]

/-- C1, counterexample.  With only the relative dump found and a session
open, the scratch file `0,10,k` / `7,3,j` holds two records that both fail the
validity test (`start == 0`, `end <= start`), and both are emitted as spans. -/
theorem record_validity_counterexample :
    parsedRecords ['0', ',', '1', '0', ',', 'k', '\n', '7', ',', '3', ',', 'j', '\n'] =
        [⟨['k'], 0, 10⟩, ⟨['j'], 7, 3⟩] ∧
      (parsedRecords ['0', ',', '1', '0', ',', 'k', '\n', '7', ',', '3', ',', 'j', '\n']).filter
        Entry.valid = [] ∧
      spansOf (llama_perfetto_emit_gpu_timeline worldRelOnly stateOpen).2 =
        [⟨['k'], 990, 1000⟩, ⟨['j'], 997, 993⟩] := by
  decide

/-- The result of `strtoull` fits `uint64_t`. -/
theorem strtoull_lt (s : List Char) : strtoull s < U64 := by
  have hpos : 0 < U64 := by decide
  unfold strtoull
  simp only
  split
  · exact hpos
  · split
    · exact Nat.sub_lt hpos (by decide)
    · split
      · exact Nat.mod_lt _ hpos
      · exact Nat.lt_of_not_le (by assumption)

/-- Both numbers of a parsed record fit `uint64_t`. -/
theorem parseLine_lt (l : List Char) (r : Entry) (h : parseLine l = some r) :
    r.s < U64 ∧ r.e < U64 := by
  unfold parseLine at h
  simp only at h
  split at h
  · cases h
    exact ⟨strtoull_lt _, strtoull_lt _⟩
  · cases h

/-- Both numbers of every parsed record fit `uint64_t`. -/
theorem parsedRecords_lt (content : List Char) :
    ∀ r ∈ parsedRecords content, r.s < U64 ∧ r.e < U64 := by
  intro r hr
  unfold parsedRecords at hr
  obtain ⟨l, _, hl⟩ := List.mem_filterMap.mp hr
  exact parseLine_lt l r hl

/-- The anchor of Path B fits `uint64_t`. -/
theorem relNow_lt (w : World) (st : State) : relNow w st < U64 := by
  have hpos : 0 < U64 := by decide
  have ha : anchorTrace w st < U64 := by
    unfold anchorTrace
    split
    · simp only
      split
      · unfold toUInt64 U64
        push_cast
        omega
      · exact hpos
    · exact hpos
  unfold relNow
  split
  · exact ha
  · exact Nat.mod_lt _ hpos

/-- Unsigned subtraction without wrap. -/
theorem subU64_exact (a b : Nat) (ha : a < U64) (hb : b ≤ a) : subU64 a b = a - b := by
  unfold subU64
  unfold U64 at *
  rw [Nat.mod_eq_of_lt ha, Nat.mod_eq_of_lt (lt_of_le_of_lt hb ha)]
  omega

/-- C3 (amended).  Relative anchoring of Path B once the relative dump is
read: `total_span` is the largest end over all parsed records and `now` is the
converted anchor when that is non-zero, else the late trace-clock sample.
When `total_span` is 0 no span is emitted.  When it is not, every parsed
record `(s,e)` is emitted as `[now - (total_span - s), now - (total_span - e)]`
in `uint64_t` arithmetic; these are the plain differences when nothing wraps;
a record whose end is `total_span` ends exactly at `now`, and there is one. -/
theorem relative_anchoring (w : World) (st : State) (content : List Char)
    (hd : w.vk_dump_timeline
        (replaceTail (llama_perfetto_tmp_stats_path w st) vktimeline) = (true, some content)) :
    parseRel (getlines content) 0 = (parsedRecords content, maxEnd (parsedRecords content)) ∧
      (∀ r ∈ parsedRecords content, r.e ≤ maxEnd (parsedRecords content)) ∧
      relNow w st = (if anchorTrace w st ≠ 0 then anchorTrace w st else w.trace_now_late % U64) ∧
      (maxEnd (parsedRecords content) = 0 → spansOf (emitRel w st).2 = []) ∧
      (maxEnd (parsedRecords content) ≠ 0 →
        spansOf (emitRel w st).2 =
            (parsedRecords content).map (fun r =>
              { name := c_str r.name,
                start_ns := subU64 (relNow w st) (subU64 (maxEnd (parsedRecords content)) r.s),
                end_ns := subU64 (relNow w st) (subU64 (maxEnd (parsedRecords content)) r.e) }) ∧
          (∀ r ∈ parsedRecords content, r.s ≤ r.e →
            maxEnd (parsedRecords content) - r.s ≤ relNow w st →
            subU64 (relNow w st) (subU64 (maxEnd (parsedRecords content)) r.s) =
                relNow w st - (maxEnd (parsedRecords content) - r.s) ∧
              subU64 (relNow w st) (subU64 (maxEnd (parsedRecords content)) r.e) =
                relNow w st - (maxEnd (parsedRecords content) - r.e)) ∧
          (∀ r ∈ parsedRecords content, r.e = maxEnd (parsedRecords content) →
            subU64 (relNow w st) (subU64 (maxEnd (parsedRecords content)) r.e) = relNow w st) ∧
          (∃ r ∈ parsedRecords content, r.e = maxEnd (parsedRecords content))) := by
  have hA := relNow_lt w st
  refine ⟨parseRel_content content, maxEnd_ge _, rfl, ?_, ?_⟩
  · intro h0
    rw [emitRel_read w st content hd, if_pos h0]
  intro h0
  obtain ⟨m, hm, hme⟩ := maxEnd_attained _ h0
  have hT : maxEnd (parsedRecords content) < U64 := by
    rw [← hme]; exact (parsedRecords_lt content m hm).2
  refine ⟨?_, ?_, ?_, ⟨m, hm, hme⟩⟩
  · rw [emitRel_read w st content hd, if_neg h0]
    rfl
  · intro r hr hse hfit
    have hre := maxEnd_ge _ r hr
    have e1 : subU64 (maxEnd (parsedRecords content)) r.s =
        maxEnd (parsedRecords content) - r.s := subU64_exact _ _ hT (le_trans hse hre)
    have e2 : subU64 (maxEnd (parsedRecords content)) r.e =
        maxEnd (parsedRecords content) - r.e := subU64_exact _ _ hT hre
    rw [e1, e2]
    exact ⟨subU64_exact _ _ hA hfit, subU64_exact _ _ hA (by omega)⟩
  · intro r _ he
    rw [he]
    have e2 : subU64 (maxEnd (parsedRecords content)) (maxEnd (parsedRecords content)) = 0 := by
      rw [subU64_exact _ _ hT (le_refl _)]; omega
    rw [e2, subU64_exact _ _ hA (Nat.zero_le _)]
    omega

/-- C3, witness: the file `0,10,k` / `7,3,j` anchored at 1000. -/
theorem relative_anchoring_witness :
    parseRel (getlines ['0', ',', '1', '0', ',', 'k', '\n', '7', ',', '3', ',', 'j', '\n']) 0 =
        ([⟨['k'], 0, 10⟩, ⟨['j'], 7, 3⟩], 10) ∧
      relNow worldRelOnly (llama_perfetto_resolve_vk_syms_once worldRelOnly stateOpen) = 1000 ∧
      spansOf (emitRel worldRelOnly
          (llama_perfetto_resolve_vk_syms_once worldRelOnly stateOpen)).2 =
        [⟨['k'], 990, 1000⟩, ⟨['j'], 997, 993⟩] := by
  have h := relative_anchoring worldRelOnly
    (llama_perfetto_resolve_vk_syms_once worldRelOnly stateOpen)
    ['0', ',', '1', '0', ',', 'k', '\n', '7', ',', '3', ',', 'j', '\n'] rfl
  refine ⟨?_, by decide, ?_⟩
  · rw [h.1]; decide
  · rw [(h.2.2.2.2 (by decide)).1]; decide

/-- C3, counterexample.  With a session open and the relative dump found,
the scratch file `5,0,x` holds one record; `total_span` stays 0 and the guard
of line 383 returns, so the record is not emitted as any span. -/
theorem relative_anchoring_counterexample :
    parsedRecords ['5', ',', '0', ',', 'x', '\n'] = [⟨['x'], 5, 0⟩] ∧
      (parseRel (getlines ['5', ',', '0', ',', 'x', '\n']) 0).2 = 0 ∧
      stateOpen.g_session = true ∧
      (llama_perfetto_resolve_vk_syms_once worldRelZero stateOpen).g_vk_dump_timeline = true ∧
      spansOf (llama_perfetto_emit_gpu_timeline worldRelZero stateOpen).2 = [] := by
  decide

/-- C9 (amended).  In Path B the entry vector holds every parsed record
and `total_span` is the largest end over all of them, valid or not: no end
exceeds it, and when it is non-zero some parsed record has it as its end. -/
theorem total_span_all_records (content : List Char) :
    (parseRel (getlines content) 0).1 = parsedRecords content ∧
      (parseRel (getlines content) 0).2 = maxEnd (parsedRecords content) ∧
      (∀ r ∈ parsedRecords content, r.e ≤ (parseRel (getlines content) 0).2) ∧
      ((parseRel (getlines content) 0).2 ≠ 0 →
        ∃ r ∈ parsedRecords content, r.e = (parseRel (getlines content) 0).2) := by
  rw [parseRel_content]
  exact ⟨rfl, rfl, maxEnd_ge _, maxEnd_attained _⟩

/-- C9, witness: the file `0,50,x` / `1,2,y`. -/
theorem total_span_all_records_witness :
    (parseRel (getlines ['0', ',', '5', '0', ',', 'x', '\n', '1', ',', '2', ',', 'y', '\n']) 0).2
        = 50 ∧
      ∃ r ∈ parsedRecords ['0', ',', '5', '0', ',', 'x', '\n', '1', ',', '2', ',', 'y', '\n'],
        r.e = (parseRel (getlines
          ['0', ',', '5', '0', ',', 'x', '\n', '1', ',', '2', ',', 'y', '\n']) 0).2 :=
  ⟨by decide,
   (total_span_all_records
      ['0', ',', '5', '0', ',', 'x', '\n', '1', ',', '2', ',', 'y', '\n']).2.2.2 (by decide)⟩

/-- C9, counterexample.  In the file `0,50,x` / `1,2,y` the only valid
record is `1,2,y`, so the largest end over the valid records is 2, yet
`total_span` is 50, the end of the invalid record. -/
theorem total_span_all_records_counterexample :
    parsedRecords ['0', ',', '5', '0', ',', 'x', '\n', '1', ',', '2', ',', 'y', '\n'] =
        [⟨['x'], 0, 50⟩, ⟨['y'], 1, 2⟩] ∧
      (parsedRecords ['0', ',', '5', '0', ',', 'x', '\n', '1', ',', '2', ',', 'y', '\n']).filter
        Entry.valid = [⟨['y'], 1, 2⟩] ∧
      maxEnd ((parsedRecords
        ['0', ',', '5', '0', ',', 'x', '\n', '1', ',', '2', ',', 'y', '\n']).filter
          Entry.valid) = 2 ∧
      (parseRel (getlines
        ['0', ',', '5', '0', ',', 'x', '\n', '1', ',', '2', ',', 'y', '\n']) 0).2 = 50 := by
  decide

/-- The ten digit characters and their values. -/
theorem digitChar_isdigit : ∀ k < 10, isdigit (Nat.digitChar k) = true ∧
    (Nat.digitChar k).toNat - '0'.toNat = k := by
  decide

/-- A digit is no comma, newline, NUL, sign or white space. -/
theorem isdigit_ne (c : Char) (h : isdigit c = true) :
    c ≠ ',' ∧ c ≠ '\n' ∧ c ≠ '\x00' ∧ c ≠ '-' ∧ c ≠ '+' ∧ isspace c = false := by
  refine ⟨?_, ?_, ?_, ?_, ?_, ?_⟩
  · rintro rfl; revert h; decide
  · rintro rfl; revert h; decide
  · rintro rfl; revert h; decide
  · rintro rfl; revert h; decide
  · rintro rfl; revert h; decide
  · unfold isspace
    simp only [Bool.or_eq_false_iff, decide_eq_false_iff_not]
    refine ⟨⟨⟨⟨⟨?_, ?_⟩, ?_⟩, ?_⟩, ?_⟩, ?_⟩ <;> (rintro rfl; revert h; decide)

/-- One step of the digit run. -/
theorem digitRun_step (c : Char) (rest : List Char) (acc : Nat) (seen : Bool)
    (h : isdigit c = true) :
    digitRun (c :: rest) acc seen = digitRun rest (acc * 10 + (c.toNat - '0'.toNat)) true := by
  simp [digitRun, h]

/-- The digit run reads back what `Nat.toDigitsCore` writes. -/
theorem toDigitsCore_digitRun (fuel : Nat) : ∀ (n : Nat) (ds : List Char), n < fuel →
    ∃ pre, Nat.toDigitsCore 10 fuel n ds = pre ++ ds ∧ pre ≠ [] ∧
      (∀ c ∈ pre, isdigit c = true) ∧
      (∀ acc seen rest, digitRun (pre ++ rest) acc seen =
        digitRun rest (acc * 10 ^ pre.length + n) true) := by
  induction fuel with
  | zero => intro n ds h; omega
  | succ f ih =>
    intro n ds h
    have hd := digitChar_isdigit (n % 10) (Nat.mod_lt _ (by decide))
    by_cases hz : n / 10 = 0
    · refine ⟨[Nat.digitChar (n % 10)], ?_, by simp, ?_, ?_⟩
      · simp [Nat.toDigitsCore, hz]
      · intro c hc
        simp only [List.mem_singleton] at hc
        rw [hc]; exact hd.1
      · intro acc seen rest
        have hn : n % 10 = n := by omega
        simp only [List.singleton_append, List.length_singleton, pow_one]
        rw [digitRun_step _ _ _ _ hd.1, hd.2, hn]
    · have hlt : n / 10 < f := by omega
      obtain ⟨pre, h1, h2, h3, h4⟩ := ih (n / 10) (Nat.digitChar (n % 10) :: ds) hlt
      refine ⟨pre ++ [Nat.digitChar (n % 10)], ?_, by simp, ?_, ?_⟩
      · simp [Nat.toDigitsCore, hz, h1]
      · intro c hc
        rcases List.mem_append.mp hc with hc | hc
        · exact h3 c hc
        · simp only [List.mem_singleton] at hc
          rw [hc]; exact hd.1
      · intro acc seen rest
        rw [List.append_assoc, List.singleton_append, h4, digitRun_step _ _ _ _ hd.1, hd.2]
        congr 1
        rw [List.length_append, List.length_singleton, pow_succ]
        have := Nat.div_add_mod n 10
        nlinarith [this]

/-- The digit run reads back what `Nat.toDigits` writes. -/
theorem toDigits_digitRun (n : Nat) :
    Nat.toDigits 10 n ≠ [] ∧ (∀ c ∈ Nat.toDigits 10 n, isdigit c = true) ∧
      (∀ rest, digitRun (Nat.toDigits 10 n ++ rest) 0 false = digitRun rest n true) := by
  obtain ⟨pre, h1, h2, h3, h4⟩ := toDigitsCore_digitRun (n + 1) n [] (Nat.lt_succ_self n)
  have e : Nat.toDigits 10 n = pre := by
    unfold Nat.toDigits
    rw [h1, List.append_nil]
  rw [e]
  refine ⟨h2, h3, ?_⟩
  intro rest
  rw [h4]
  simp

/-- Decimal round trip: `strtoull` of the decimal text of `n` is `n`. -/
theorem strtoull_toDigits (n : Nat) (h : n < U64) : strtoull (c_str (Nat.toDigits 10 n)) = n := by
  obtain ⟨h1, h2, h3⟩ := toDigits_digitRun n
  have hc : c_str (Nat.toDigits 10 n) = Nat.toDigits 10 n := by
    unfold c_str
    rw [List.takeWhile_eq_self_iff]
    intro c hc
    simpa using (isdigit_ne c (h2 c hc)).2.2.1
  rw [hc]
  cases hds : Nat.toDigits 10 n with
  | nil => exact absurd hds h1
  | cons c cs =>
    have hcd : isdigit c = true := h2 c (by rw [hds]; exact List.mem_cons_self _ _)
    obtain ⟨_, _, _, hm, hp, hsp⟩ := isdigit_ne c hcd
    have hrun : digitRun (c :: cs) 0 false = (n, true) := by
      have := h3 []
      rw [hds, List.append_nil] at this
      rw [this]; rfl
    unfold strtoull
    have hdw : List.dropWhile isspace (c :: cs) = c :: cs := by
      simp [List.dropWhile, hsp]
    have hmatch : (match c :: cs with
        | '-' :: r => (true, r)
        | '+' :: r => (false, r)
        | r => (false, r)) = (false, c :: cs) := by
      split
      · rename_i heq
        simp only [List.cons.injEq] at heq
        exact absurd heq.1 hm
      · rename_i heq
        simp only [List.cons.injEq] at heq
        exact absurd heq.1 hp
      · rfl
    simp only [hdw, hmatch, hrun]
    have : ¬ U64 ≤ n := by omega
    simp [this]

/-- No comma, no index. -/
theorem findComma_none (l : List Char) (n : Nat) (h : ',' ∉ l) : findComma l n = none := by
  induction l generalizing n with
  | nil => rfl
  | cons c cs ih =>
    have hc : c ≠ ',' := fun e => h (by rw [e]; exact List.mem_cons_self _ _)
    have hcs : ',' ∉ cs := fun e => h (List.mem_cons_of_mem _ e)
    cases n with
    | zero => simp [findComma, hc, ih 0 hcs]
    | succ k => simp [findComma, ih k hcs]

/-- The first comma after a comma-free prefix. -/
theorem findComma_first (pre rest : List Char) (h : ',' ∉ pre) :
    findComma (pre ++ ',' :: rest) 0 = some pre.length := by
  induction pre with
  | nil => simp [findComma]
  | cons c cs ih =>
    have hc : c ≠ ',' := fun e => h (by rw [e]; exact List.mem_cons_self _ _)
    have hcs : ',' ∉ cs := fun e => h (List.mem_cons_of_mem _ e)
    simp [findComma, hc, ih hcs]

/-- Searching from behind a prefix is searching the rest. -/
theorem findComma_skip (pre rest : List Char) (k : Nat) :
    findComma (pre ++ rest) (pre.length + k) = (findComma rest k).map (· + pre.length) := by
  induction pre with
  | nil => simp
  | cons c cs ih =>
    have e : (c :: cs).length + k = (cs.length + k) + 1 := by simp; omega
    rw [List.cons_append, e]
    simp only [findComma, ih, Option.map_map]
    congr 1

/-- A line with fewer than two commas is skipped. -/
theorem parseLine_few_commas (l : List Char) (h : l.count ',' < 2) : parseLine l = none := by
  by_cases hm : ',' ∈ l
  · obtain ⟨pre, rest, rfl, hpre⟩ := List.eq_append_cons_of_mem hm
    have hrest : ',' ∉ rest := by
      intro hr
      have h1 : 0 < rest.count ',' := List.count_pos_iff.mpr hr
      simp only [List.count_append, List.count_cons_self] at h
      omega
    have h1 := findComma_first pre rest hpre
    have h2 : findComma (pre ++ ',' :: rest) (pre.length + 1) = none := by
      have e : pre ++ ',' :: rest = (pre ++ [',']) ++ rest := by simp
      have e2 : pre.length + 1 = (pre ++ [',']).length + 0 := by simp
      rw [e, e2, findComma_skip, findComma_none rest 0 hrest]
      rfl
    unfold parseLine
    simp only [h1, h2]
  · unfold parseLine
    simp only [findComma_none l 0 hm]

/-- A well-formed line parses to its record. -/
theorem parseLine_wellformed (s e : Nat) (name : List Char) (hs : s < U64) (he : e < U64) :
    parseLine (Nat.toDigits 10 s ++ ',' :: (Nat.toDigits 10 e ++ ',' :: name)) =
      some { name := name, s := s, e := e } := by
  have hns : ',' ∉ Nat.toDigits 10 s := fun hm =>
    (isdigit_ne _ ((toDigits_digitRun s).2.1 _ hm)).1 rfl
  have hne : ',' ∉ Nat.toDigits 10 e := fun hm =>
    (isdigit_ne _ ((toDigits_digitRun e).2.1 _ hm)).1 rfl
  generalize hds : Nat.toDigits 10 s = ds at hns
  generalize hde : Nat.toDigits 10 e = de at hne
  have h1 := findComma_first ds (de ++ ',' :: name) hns
  have h2 : findComma (ds ++ ',' :: (de ++ ',' :: name)) (ds.length + 1) =
      some (de.length + (ds.length + 1)) := by
    have e1 : ds ++ ',' :: (de ++ ',' :: name) = (ds ++ [',']) ++ (de ++ ',' :: name) := by simp
    have e2 : ds.length + 1 = (ds ++ [',']).length + 0 := by simp
    rw [e1, e2, findComma_skip, findComma_first de name hne]
    simp
  have f1 : substr (ds ++ ',' :: (de ++ ',' :: name)) 0 ds.length = ds := by
    simp [substr]
  have f2 : substr (ds ++ ',' :: (de ++ ',' :: name)) (ds.length + 1)
      (de.length + (ds.length + 1) - ds.length - 1) = de := by
    have e1 : ds ++ ',' :: (de ++ ',' :: name) = (ds ++ [',']) ++ (de ++ ',' :: name) := by simp
    have e2 : ds.length + 1 = (ds ++ [',']).length := by simp
    have e3 : de.length + (ds.length + 1) - ds.length - 1 = de.length := by omega
    unfold substr
    rw [e3, e1, e2, List.drop_left]
    simp
  have f3 : substrFrom (ds ++ ',' :: (de ++ ',' :: name)) (de.length + (ds.length + 1) + 1) =
      name := by
    have e1 : ds ++ ',' :: (de ++ ',' :: name) = (ds ++ [','] ++ de ++ [',']) ++ name := by simp
    have e2 : de.length + (ds.length + 1) + 1 = (ds ++ [','] ++ de ++ [',']).length := by
      simp; omega
    unfold substrFrom
    rw [e1, e2, List.drop_left]
  unfold parseLine
  simp only [h1, h2, f1, f2, f3]
  rw [← hds, ← hde, strtoull_toDigits s hs, strtoull_toDigits e he]

/-- Reading a newline-free run inside a line. -/
theorem getlinesAux_append (l rest cur : List Char) (any : Bool) (h : '\n' ∉ l) :
    getlinesAux (l ++ rest) cur any =
      getlinesAux rest (l.reverse ++ cur) (any || !l.isEmpty) := by
  induction l generalizing cur any with
  | nil => simp
  | cons c cs ih =>
    have hc : c ≠ '\n' := fun e => h (by rw [e]; exact List.mem_cons_self _ _)
    have hcs : '\n' ∉ cs := fun e => h (List.mem_cons_of_mem _ e)
    rw [List.cons_append]
    simp only [getlinesAux, hc, if_false]
    rw [ih _ _ hcs]
    simp

/-- A newline-terminated first line. -/
theorem getlines_line (l rest : List Char) (h : '\n' ∉ l) :
    getlines (l ++ '\n' :: rest) = l :: getlines rest := by
  unfold getlines
  rw [getlinesAux_append l _ [] false h]
  simp [getlinesAux]

/-- A non-empty last line without newline. -/
theorem getlines_last (l : List Char) (h : '\n' ∉ l) (hne : l ≠ []) : getlines l = [l] := by
  unfold getlines
  have := getlinesAux_append l [] [] false h
  rw [List.append_nil] at this
  rw [this]
  cases l with
  | nil => exact absurd rfl hne
  | cons c cs => simp [getlinesAux]

/-- A non-empty last line, with or without its newline. -/
theorem getlines_final (l tl : List Char) (h : '\n' ∉ l) (hne : l ≠ [])
    (htl : tl = [] ∨ tl = ['\n']) : getlines (l ++ tl) = [l] := by
  rcases htl with rfl | rfl
  · rw [List.append_nil]; exact getlines_last l h hne
  · rw [getlines_line l [] h]; rfl

/-- A skipped line does not change the parsed records. -/
theorem filterMap_skip (pre post : List (List Char)) (l : List Char)
    (h : parseLine l = none) :
    (pre ++ l :: post).filterMap parseLine = (pre ++ post).filterMap parseLine := by
  simp [List.filterMap_append, List.filterMap_cons, h]

/-- A well-formed line has no newline when its name has none. -/
theorem recordLine_no_newline (s e : Nat) (name : List Char) (h : '\n' ∉ name) :
    '\n' ∉ recordLine s e name ∧ recordLine s e name ≠ [] := by
  have hs : '\n' ∉ Nat.toDigits 10 s := fun hm =>
    (isdigit_ne _ ((toDigits_digitRun s).2.1 _ hm)).2.1 rfl
  have he : '\n' ∉ Nat.toDigits 10 e := fun hm =>
    (isdigit_ne _ ((toDigits_digitRun e).2.1 _ hm)).2.1 rfl
  unfold recordLine
  constructor
  · simp only [List.mem_append, List.mem_cons, not_or]
    exact ⟨hs, by decide, he, by decide, h⟩
  · simp

/-- C8.  Parser robustness.  Both parse loops skip a line with fewer than
two commas wherever it stands; and a file of one well-formed line
`start,end,name` (decimal numbers below `2^64`, `end > start`, `start != 0`)
and one line with exactly one comma, in either order, with or without a final
newline, yields exactly that one record in both loops, and it is valid. -/
theorem parser_robustness :
    (∀ (pre post : List (List Char)) (l : List Char) (span : Nat), l.count ',' < 2 →
        parseAbs (pre ++ l :: post) = parseAbs (pre ++ post) ∧
        parseRel (pre ++ l :: post) span = parseRel (pre ++ post) span) ∧
      (∀ (s e : Nat) (name bad tl : List Char), s < U64 → e < U64 → e > s → s ≠ 0 →
        '\n' ∉ name → '\n' ∉ bad → bad.count ',' = 1 → (tl = [] ∨ tl = ['\n']) →
        parseAbs (getlines (recordLine s e name ++ '\n' :: (bad ++ tl))) =
            [{ name := name, s := s, e := e }] ∧
          parseAbs (getlines (bad ++ '\n' :: (recordLine s e name ++ tl))) =
            [{ name := name, s := s, e := e }] ∧
          (parseRel (getlines (recordLine s e name ++ '\n' :: (bad ++ tl))) 0).1 =
            [{ name := name, s := s, e := e }] ∧
          (parseRel (getlines (bad ++ '\n' :: (recordLine s e name ++ tl))) 0).1 =
            [{ name := name, s := s, e := e }] ∧
          Entry.valid { name := name, s := s, e := e } = true) := by
  constructor
  · intro pre post l span h
    have hl := parseLine_few_commas l h
    rw [parseAbs_eq, parseAbs_eq, parseRel_eq, parseRel_eq, filterMap_skip pre post l hl]
    exact ⟨rfl, rfl⟩
  · intro s e name bad tl hs he hes hs0 hname hbad hcount htl
    obtain ⟨hg1, hg2⟩ := recordLine_no_newline s e name hname
    have hbne : bad ≠ [] := by
      intro hb; rw [hb] at hcount; simp at hcount
    have hv : Entry.valid { name := name, s := s, e := e } = true := by
      simp [Entry.valid, hes, hs0]
    have hpg : parseLine (recordLine s e name) = some { name := name, s := s, e := e } :=
      parseLine_wellformed s e name hs he
    have hpb : parseLine bad = none := parseLine_few_commas bad (by omega)
    have l1 : getlines (recordLine s e name ++ '\n' :: (bad ++ tl)) =
        [recordLine s e name, bad] := by
      rw [getlines_line _ _ hg1, getlines_final bad tl hbad hbne htl]
    have l2 : getlines (bad ++ '\n' :: (recordLine s e name ++ tl)) =
        [bad, recordLine s e name] := by
      rw [getlines_line _ _ hbad, getlines_final _ tl hg1 hg2 htl]
    rw [l1, l2, parseAbs_eq, parseAbs_eq, parseRel_eq, parseRel_eq]
    simp [List.filterMap_cons, hpg, hpb, hv]

/-- C8, witness: the lines `5,9,mul` and `7,x`. -/
theorem parser_robustness_witness :
    parseAbs (getlines (recordLine 5 9 ['m', 'u', 'l'] ++ '\n' :: (['7', ',', 'x'] ++ ['\n']))) =
        [{ name := ['m', 'u', 'l'], s := 5, e := 9 }] ∧
      parseAbs (getlines (['7', ',', 'x'] ++ '\n' :: (recordLine 5 9 ['m', 'u', 'l'] ++ ['\n']))) =
        [{ name := ['m', 'u', 'l'], s := 5, e := 9 }] ∧
      (parseRel (getlines
          (recordLine 5 9 ['m', 'u', 'l'] ++ '\n' :: (['7', ',', 'x'] ++ ['\n']))) 0).1 =
        [{ name := ['m', 'u', 'l'], s := 5, e := 9 }] ∧
      (parseRel (getlines
          (['7', ',', 'x'] ++ '\n' :: (recordLine 5 9 ['m', 'u', 'l'] ++ ['\n']))) 0).1 =
        [{ name := ['m', 'u', 'l'], s := 5, e := 9 }] ∧
      Entry.valid { name := ['m', 'u', 'l'], s := 5, e := 9 } = true :=
  parser_robustness.2 5 9 ['m', 'u', 'l'] ['7', ',', 'x'] ['\n'] (by decide) (by decide)
    (by decide) (by decide) (by decide) (by decide) (by decide) (Or.inr rfl)

/-- The sort order read as a lexicographic comparison of timestamp, then delta. -/
theorem evLe_iff (a b : Ev) :
    evLe a b ↔ a.ts < b.ts ∨ (a.ts = b.ts ∧ a.delta ≤ b.delta) := by
  unfold evLe evLess
  by_cases h : b.ts = a.ts
  · simp only [h, ne_eq, not_true_eq_false, if_false, not_lt, lt_self_iff_false, false_or,
      true_and]
  · simp only [ne_eq, h, not_false_eq_true, if_true, not_lt]
    constructor
    · intro hle
      left
      omega
    · rintro (hlt | ⟨he, _⟩)
      · omega
      · exact absurd he.symm h

/-- The sort order is total. -/
theorem evLe_total : IsTotal Ev evLe :=
  ⟨fun a b => by
    rw [evLe_iff, evLe_iff]
    rcases Nat.lt_trichotomy a.ts b.ts with h | h | h
    · exact Or.inl (Or.inl h)
    · rcases Int.le_total a.delta b.delta with hd | hd
      · exact Or.inl (Or.inr ⟨h, hd⟩)
      · exact Or.inr (Or.inr ⟨h.symm, hd⟩)
    · exact Or.inr (Or.inl h)⟩

/-- The sort order is transitive. -/
theorem evLe_trans : IsTrans Ev evLe :=
  ⟨fun a b c => by
    rw [evLe_iff, evLe_iff, evLe_iff]
    rintro (h1 | ⟨h1, d1⟩) (h2 | ⟨h2, d2⟩)
    · left; omega
    · left; omega
    · left; omega
    · right; exact ⟨by omega, le_trans d1 d2⟩⟩

/-- The sort order is antisymmetric: events it does not separate are equal. -/
theorem evLe_antisymm : IsAntisymm Ev evLe :=
  ⟨fun a b => by
    rw [evLe_iff, evLe_iff]
    rintro (h1 | ⟨h1, d1⟩) (h2 | ⟨h2, d2⟩)
    · omega
    · omega
    · omega
    · cases a; cases b
      simp only at h1 d1 d2
      simp only [Ev.mk.injEq]
      exact ⟨h1, le_antisymm d1 d2⟩⟩

/-- The sort is insertion sort along `evLe`. -/
theorem sortEvs_eq (evs : List Ev) : sortEvs evs = evs.insertionSort evLe := rfl

/-- The sorted vector is sorted. -/
theorem sortEvs_sorted (evs : List Ev) : (sortEvs evs).Sorted evLe := by
  haveI := evLe_total
  haveI := evLe_trans
  rw [sortEvs_eq]; exact List.sorted_insertionSort evLe evs

/-- The sorted vector is a permutation of the input. -/
theorem sortEvs_perm (evs : List Ev) : (sortEvs evs).Perm evs := by
  rw [sortEvs_eq]; exact List.perm_insertionSort evLe evs

/-- The sorted vector does not depend on the input order. -/
theorem sortEvs_of_perm (evs1 evs2 : List Ev) (h : evs1.Perm evs2) :
    sortEvs evs1 = sortEvs evs2 :=
  haveI := evLe_antisymm
  List.eq_of_perm_of_sorted
    (((sortEvs_perm evs1).trans h).trans (sortEvs_perm evs2).symm)
    (sortEvs_sorted evs1) (sortEvs_sorted evs2)

/-- The running counts over a concatenation. -/
theorem activeTrace_append (a : Int) (l m : List Ev) :
    activeTrace a (l ++ m) = activeTrace a l ++ activeTrace (scanActive a l) m := by
  induction l generalizing a with
  | nil => rfl
  | cons x xs ih => simp [activeTrace, scanActive, ih]

/-- The samples over a concatenation. -/
theorem scan_append (a : Int) (l m : List Ev) :
    scan a (l ++ m) = scan a l ++ scan (scanActive a l) m := by
  induction l generalizing a with
  | nil => rfl
  | cons x xs ih =>
    simp only [List.cons_append, scan, scanActive]
    split <;> split <;> simp [ih]

/-- The final count over a concatenation. -/
theorem scanActive_append (a : Int) (l m : List Ev) :
    scanActive a (l ++ m) = scanActive (scanActive a l) m := by
  induction l generalizing a with
  | nil => rfl
  | cons x xs ih => simp [scanActive, ih]

/-- The final count is the start count plus the sum of the deltas. -/
theorem scanActive_sum (a : Int) (l : List Ev) :
    scanActive a l = a + (l.map Ev.delta).sum := by
  induction l generalizing a with
  | nil => simp [scanActive]
  | cons x xs ih => simp [scanActive, ih]; ring

/-- The deltas of the events of a list of intervals sum to 0. -/
theorem eventsAbs_sum (ivs : List Placed) : ((eventsAbs ivs).map Ev.delta).sum = 0 := by
  induction ivs with
  | nil => rfl
  | cons iv rest ih =>
    obtain ⟨s, e⟩ := iv
    simp [eventsAbs, ih]

/-- Every event of a list of intervals has delta 1 or -1. -/
theorem eventsAbs_delta (ivs : List Placed) :
    ∀ ev ∈ eventsAbs ivs, ev.delta = 1 ∨ ev.delta = -1 := by
  induction ivs with
  | nil => intro ev h; cases h
  | cons iv rest ih =>
    obtain ⟨s, e⟩ := iv
    intro ev h
    simp only [eventsAbs, List.mem_cons] at h
    rcases h with rfl | rfl | h
    · exact Or.inl rfl
    · exact Or.inr rfl
    · exact ih ev h

/-- Both paths build the same events when every interval has `start < end`. -/
theorem eventsRel_eq_eventsAbs (ivs : List Placed) (h : ∀ iv ∈ ivs, iv.1 < iv.2) :
    eventsRel ivs = eventsAbs ivs := by
  induction ivs with
  | nil => rfl
  | cons iv rest ih =>
    obtain ⟨s, e⟩ := iv
    have h1 : s < e := h (s, e) (List.mem_cons_self _ _)
    have h2 := ih (fun iv hiv => h iv (List.mem_cons_of_mem _ hiv))
    simp [eventsRel, eventsAbs, h1, h2]

/-- The scan of the sorted events of a list of intervals ends at count 0. -/
theorem scanActive_sorted_events (ivs : List Placed) :
    scanActive 0 (sortEvs (eventsAbs ivs)) = 0 := by
  rw [scanActive_sum, ((sortEvs_perm (eventsAbs ivs)).map Ev.delta).sum_eq, eventsAbs_sum]
  rfl
/-- Insertion in front of the head. -/
theorem orderedInsert_pos (a b : Ev) (l : List Ev) (h : evLe a b) :
    (b :: l).orderedInsert evLe a = a :: b :: l := by
  show (if evLe a b then a :: b :: l else b :: l.orderedInsert evLe a) = _
  rw [if_pos h]

/-- Insertion behind the head. -/
theorem orderedInsert_neg (a b : Ev) (l : List Ev) (h : ¬ evLe a b) :
    (b :: l).orderedInsert evLe a = b :: l.orderedInsert evLe a := by
  show (if evLe a b then a :: b :: l else b :: l.orderedInsert evLe a) = _
  rw [if_neg h]

/-- The running counts, one event unfolded. -/
theorem activeTrace_cons (a : Int) (x : Ev) (l : List Ev) :
    activeTrace a (x :: l) = (a + x.delta) :: activeTrace (a + x.delta) l := rfl

/-- Inserting an end event into a scan that starts one higher keeps the counts non-negative. -/
theorem activeTrace_insert_end (E : Ev) (hE : E.delta = -1) (m : List Ev) (a : Int)
    (ha : 0 ≤ a) (h : ∀ c ∈ activeTrace a m, 0 ≤ c) :
    ∀ c ∈ activeTrace (a + 1) (m.orderedInsert evLe E), 0 ≤ c := by
  induction m generalizing a with
  | nil =>
    rw [List.orderedInsert_nil, activeTrace_cons, hE]
    intro c hc
    simp only [activeTrace, List.mem_singleton] at hc
    omega
  | cons y ys ih =>
    rw [activeTrace_cons, List.forall_mem_cons] at h
    by_cases hy : evLe E y
    · rw [orderedInsert_pos E y ys hy, activeTrace_cons, hE, activeTrace_cons]
      have e : a + 1 + -1 = a := by omega
      rw [e]
      simp only [List.forall_mem_cons]
      exact ⟨ha, h.1, h.2⟩
    · rw [orderedInsert_neg E y ys hy, activeTrace_cons]
      have e : a + 1 + y.delta = a + y.delta + 1 := by omega
      rw [e]
      simp only [List.forall_mem_cons]
      exact ⟨by omega, ih (a + y.delta) h.1 h.2⟩

/-- Inserting an interval (its end event, then its begin event) keeps the counts non-negative. -/
theorem activeTrace_insert_pair (S E : Ev) (hS : S.delta = 1) (hE : E.delta = -1)
    (hSE : evLe S E) (l : List Ev) (a : Int) (ha : 0 ≤ a)
    (h : ∀ c ∈ activeTrace a l, 0 ≤ c) :
    ∀ c ∈ activeTrace a ((l.orderedInsert evLe E).orderedInsert evLe S), 0 ≤ c := by
  induction l generalizing a with
  | nil =>
    rw [List.orderedInsert_nil, orderedInsert_pos S E [] hSE, activeTrace_cons,
      activeTrace_cons, hS, hE]
    intro c hc
    simp only [activeTrace, List.mem_cons, List.mem_singleton, List.not_mem_nil, or_false]
      at hc
    omega
  | cons x xs ih =>
    rw [activeTrace_cons, List.forall_mem_cons] at h
    by_cases hx : evLe E x
    · have hSx : evLe S E := hSE
      rw [orderedInsert_pos E x xs hx, orderedInsert_pos S E (x :: xs) hSx, activeTrace_cons,
        activeTrace_cons, activeTrace_cons, hS, hE]
      have e : a + 1 + -1 = a := by omega
      rw [e]
      simp only [List.forall_mem_cons]
      exact ⟨by omega, ha, h.1, h.2⟩
    · rw [orderedInsert_neg E x xs hx]
      by_cases hsx : evLe S x
      · have hins := activeTrace_insert_end E hE (x :: xs) a ha
          (by rw [activeTrace_cons, List.forall_mem_cons]; exact h)
        rw [orderedInsert_neg E x xs hx] at hins
        rw [orderedInsert_pos S x _ hsx, activeTrace_cons, hS]
        simp only [List.forall_mem_cons]
        exact ⟨by omega, hins⟩
      · rw [orderedInsert_neg S x _ hsx, activeTrace_cons]
        simp only [List.forall_mem_cons]
        exact ⟨h.1, ih (a + x.delta) h.1 h.2⟩

/-- Sorting the events of one more interval is two insertions. -/
theorem sortEvs_eventsAbs_cons (s e : Nat) (rest : List Placed) :
    sortEvs (eventsAbs ((s, e) :: rest)) =
      ((sortEvs (eventsAbs rest)).orderedInsert evLe { ts := e, delta := -1 }).orderedInsert
        evLe { ts := s, delta := 1 } := rfl

/-- The running count of the scan is never negative. -/
theorem activeTrace_nonneg (ivs : List Placed) (h : ∀ iv ∈ ivs, iv.1 < iv.2) :
    ∀ c ∈ activeTrace 0 (sortEvs (eventsAbs ivs)), 0 ≤ c := by
  induction ivs with
  | nil => intro c hc; cases hc
  | cons iv rest ih =>
    obtain ⟨s, e⟩ := iv
    have h1 : s < e := h (s, e) (List.mem_cons_self _ _)
    have h2 := ih (fun iv hiv => h iv (List.mem_cons_of_mem _ hiv))
    have hSE : evLe { ts := s, delta := 1 } { ts := e, delta := -1 } := by
      rw [evLe_iff]; exact Or.inl h1
    rw [sortEvs_eventsAbs_cons]
    exact activeTrace_insert_pair { ts := s, delta := 1 } { ts := e, delta := -1 } rfl rfl
      hSE (sortEvs (eventsAbs rest)) 0 (le_refl _) h2
/-- With counts that stay non-negative, the samples alternate, starting at 100 from count 0. -/
theorem scan_alternates (l : List Ev) (a : Int) (ha : 0 ≤ a)
    (hd : ∀ ev ∈ l, ev.delta = 1 ∨ ev.delta = -1)
    (hn : ∀ c ∈ activeTrace a l, 0 ≤ c) :
    Alternates (if a = 0 then 100 else 0) (scan a l) := by
  induction l generalizing a with
  | nil => trivial
  | cons ev rest ih =>
    rw [activeTrace_cons, List.forall_mem_cons] at hn
    have hrest : ∀ ev ∈ rest, ev.delta = 1 ∨ ev.delta = -1 :=
      fun x hx => hd x (List.mem_cons_of_mem _ hx)
    have hih := ih (a + ev.delta) hn.1 hrest hn.2
    rcases hd ev (List.mem_cons_self _ _) with h1 | h1
    · have hnz : a + 1 ≠ 0 := by omega
      rw [h1, if_neg hnz] at hih
      by_cases h0 : a = 0
      · simp only [scan, h1, h0, if_true]
        simp only [h0] at hih
        exact ⟨rfl, hih⟩
      · simp only [scan, h1, h0, if_false]
        simpa using hih
    · have hpos : a ≠ 0 := by
        have := hn.1
        rw [h1] at this
        omega
      rw [h1] at hih
      by_cases h0 : a + -1 = 0
      · simp only [scan, h1, hpos, h0, if_true, if_false]
        rw [h0] at hih
        exact ⟨rfl, by simpa using hih⟩
      · simp only [scan, h1, hpos, h0, if_false]
        rw [if_neg h0] at hih
        simpa using hih

/-- The sample timestamps are a sublist of the event timestamps. -/
theorem scan_ts_sublist (l : List Ev) (a : Int) :
    ((scan a l).map Sample.ts).Sublist (l.map Ev.ts) := by
  induction l generalizing a with
  | nil => exact List.Sublist.slnil
  | cons ev rest ih =>
    simp only [scan, List.map_cons]
    split
    · split
      · exact (ih _).cons₂ _
      · exact (ih _).cons _
    · split
      · exact (ih _).cons₂ _
      · exact (ih _).cons _

/-- The timestamps of a sorted event vector never decrease. -/
theorem sorted_ts (l : List Ev) (h : l.Sorted evLe) : (l.map Ev.ts).Pairwise (· ≤ ·) := by
  rw [List.pairwise_map]
  refine List.Pairwise.imp ?_ h
  intro a b hab
  rcases (evLe_iff a b).mp hab with h1 | ⟨h1, _⟩
  · exact Nat.le_of_lt h1
  · exact Nat.le_of_eq h1

/-- The events of a list of intervals are its begin events and its end events. -/
theorem mem_eventsAbs (ivs : List Placed) (ev : Ev) :
    ev ∈ eventsAbs ivs ↔
      ∃ iv ∈ ivs, ev = { ts := iv.1, delta := 1 } ∨ ev = { ts := iv.2, delta := -1 } := by
  induction ivs with
  | nil => simp [eventsAbs]
  | cons iv rest ih =>
    obtain ⟨s, e⟩ := iv
    simp only [eventsAbs, List.mem_cons, ih]
    constructor
    · rintro (h | h | ⟨iv, hiv, h⟩)
      · exact ⟨(s, e), Or.inl rfl, Or.inl h⟩
      · exact ⟨(s, e), Or.inl rfl, Or.inr h⟩
      · exact ⟨iv, Or.inr hiv, h⟩
    · rintro ⟨iv, hiv | hiv, h⟩
      · subst hiv
        rcases h with h | h
        · exact Or.inl h
        · exact Or.inr (Or.inl h)
      · exact Or.inr (Or.inr ⟨iv, hiv, h⟩)

/-- The final count is the start count or one of the running counts. -/
theorem scanActive_mem (a : Int) (l : List Ev) : scanActive a l ∈ a :: activeTrace a l := by
  induction l generalizing a with
  | nil => simp [scanActive]
  | cons x xs ih =>
    rw [activeTrace_cons]
    exact List.mem_cons_of_mem _ (ih (a + x.delta))
/-- The sorted events of a non-empty list of intervals are not empty. -/
theorem sortEvs_events_ne_nil (ivs : List Placed) (hne : ivs ≠ []) :
    sortEvs (eventsAbs ivs) ≠ [] := by
  intro h
  have hp := sortEvs_perm (eventsAbs ivs)
  rw [h] at hp
  have he : eventsAbs ivs = [] := (List.nil_perm.mp hp)
  cases ivs with
  | nil => exact hne rfl
  | cons iv rest =>
    obtain ⟨s, e⟩ := iv
    simp [eventsAbs] at he

/-- For a non-empty list of intervals the samples are the scan of the sorted events. -/
theorem occupancy_eq_scan (ivs : List Placed) (hne : ivs ≠ []) :
    occupancy (eventsAbs ivs) = scan 0 (sortEvs (eventsAbs ivs)) := by
  cases ivs with
  | nil => exact absurd rfl hne
  | cons iv rest =>
    obtain ⟨s, e⟩ := iv
    simp [occupancy, eventsAbs]

/-- The first sample is 100 at the least start. -/
theorem occupancy_first (ivs : List Placed) (hne : ivs ≠ [])
    (hlt : ∀ iv ∈ ivs, iv.1 < iv.2) :
    ∃ m, (occupancy (eventsAbs ivs)).head? = some { ts := m, percent := 100 } ∧
      (∃ iv ∈ ivs, iv.1 = m) ∧ ∀ iv ∈ ivs, m ≤ iv.1 := by
  rw [occupancy_eq_scan ivs hne]
  have hs := sortEvs_sorted (eventsAbs ivs)
  have hp := sortEvs_perm (eventsAbs ivs)
  have hn := activeTrace_nonneg ivs hlt
  cases hL : sortEvs (eventsAbs ivs) with
  | nil => exact absurd hL (sortEvs_events_ne_nil ivs hne)
  | cons h t =>
    rw [hL] at hs hp hn
    rw [activeTrace_cons, List.forall_mem_cons] at hn
    have hmin : ∀ x ∈ t, evLe h x := List.rel_of_sorted_cons hs
    have hmem : h ∈ eventsAbs ivs := hp.mem_iff.mp (List.mem_cons_self _ _)
    obtain ⟨iv, hiv, hh | hh⟩ := (mem_eventsAbs ivs h).mp hmem
    · refine ⟨iv.1, ?_, ⟨iv, hiv, rfl⟩, ?_⟩
      · rw [hh]
        simp [scan]
      · intro iv2 hiv2
        have hm2 : ({ ts := iv2.1, delta := 1 } : Ev) ∈ h :: t :=
          hp.mem_iff.mpr ((mem_eventsAbs ivs _).mpr ⟨iv2, hiv2, Or.inl rfl⟩)
        rcases List.mem_cons.mp hm2 with heq | hin
        · rw [hh] at heq
          simp only [Ev.mk.injEq, and_true] at heq
          omega
        · have hle := (evLe_iff _ _).mp (hmin _ hin)
          rw [hh] at hle
          simp only at hle
          omega
    · have := hn.1
      rw [hh] at this
      simp only at this
      omega

/-- The last sample is 0 at the greatest end. -/
theorem occupancy_last (ivs : List Placed) (hne : ivs ≠ [])
    (hlt : ∀ iv ∈ ivs, iv.1 < iv.2) :
    ∃ M, (occupancy (eventsAbs ivs)).getLast? = some { ts := M, percent := 0 } ∧
      (∃ iv ∈ ivs, iv.2 = M) ∧ ∀ iv ∈ ivs, iv.2 ≤ M := by
  rw [occupancy_eq_scan ivs hne]
  have hs := sortEvs_sorted (eventsAbs ivs)
  have hp := sortEvs_perm (eventsAbs ivs)
  have hn := activeTrace_nonneg ivs hlt
  have hz := scanActive_sorted_events ivs
  rcases List.eq_nil_or_concat (sortEvs (eventsAbs ivs)) with hL | ⟨init, last, hL⟩
  · exact absurd hL (sortEvs_events_ne_nil ivs hne)
  · rw [List.concat_eq_append] at hL
    rw [hL] at hs hp hn hz
    rw [hL]
    rw [scanActive_append] at hz
    have hmax : ∀ x ∈ init, evLe x last := by
      intro x hx
      have := (List.pairwise_append.mp hs).2.2 x hx last (List.mem_singleton_self _)
      exact this
    have hc : 0 ≤ scanActive 0 init := by
      rcases List.mem_cons.mp (scanActive_mem 0 init) with h0 | hin
      · rw [h0]
      · apply hn
        rw [activeTrace_append]
        exact List.mem_append_left _ hin
    have hmem : last ∈ eventsAbs ivs :=
      hp.mem_iff.mp (List.mem_append_right _ (List.mem_singleton_self _))
    have hz2 : scanActive 0 init + last.delta = 0 := hz
    obtain ⟨iv, hiv, hh | hh⟩ := (mem_eventsAbs ivs last).mp hmem
    · rw [hh] at hz2
      simp only at hz2
      omega
    · have hd : last.delta = -1 := by rw [hh]
      refine ⟨iv.2, ?_, ⟨iv, hiv, rfl⟩, ?_⟩
      · have hsc : scan (scanActive 0 init) [last] = [{ ts := iv.2, percent := 0 }] := by
          have h1 : scanActive 0 init + -1 = 0 := by rw [hd] at hz2; exact hz2
          rw [hh]
          simp [scan, h1]
        rw [scan_append, hsc, List.getLast?_append]
        simp
      · intro iv2 hiv2
        have hm2 : ({ ts := iv2.2, delta := -1 } : Ev) ∈ init ++ [last] :=
          hp.mem_iff.mpr ((mem_eventsAbs ivs _).mpr ⟨iv2, hiv2, Or.inr rfl⟩)
        rcases List.mem_append.mp hm2 with hin | heq
        · have hle := (evLe_iff _ _).mp (hmax _ hin)
          rw [hh] at hle
          simp only at hle
          omega
        · rw [List.mem_singleton, hh] at heq
          simp only [Ev.mk.injEq, and_true] at heq
          omega
/-- The order the sort leaves and the scan of two touching intervals. -/
theorem sortEvs_tie_break :
    (∀ evs : List Ev, (sortEvs evs).Perm evs ∧
        (sortEvs evs).Pairwise
          (fun x y => x.ts < y.ts ∨ (x.ts = y.ts ∧ x.delta ≤ y.delta)) ∧
        ∀ t, ¬ List.Sublist [{ ts := t, delta := 1 }, { ts := t, delta := -1 }] (sortEvs evs)) ∧
      (∀ evs1 evs2 : List Ev, evs1.Perm evs2 → sortEvs evs1 = sortEvs evs2) ∧
      (∀ a b c : Nat, a < b → b < c →
        sortEvs (eventsAbs [(a, b), (b, c)]) =
            [{ ts := a, delta := 1 }, { ts := b, delta := -1 }, { ts := b, delta := 1 },
             { ts := c, delta := -1 }] ∧
          sortEvs (eventsAbs [(b, c), (a, b)]) = sortEvs (eventsAbs [(a, b), (b, c)]) ∧
          eventsRel [(a, b), (b, c)] = eventsAbs [(a, b), (b, c)] ∧
          eventsRel [(b, c), (a, b)] = eventsAbs [(b, c), (a, b)] ∧
          occupancy (eventsAbs [(a, b), (b, c)]) = [⟨a, 100⟩, ⟨b, 0⟩, ⟨b, 100⟩, ⟨c, 0⟩] ∧
          occupancy (eventsAbs [(b, c), (a, b)]) = [⟨a, 100⟩, ⟨b, 0⟩, ⟨b, 100⟩, ⟨c, 0⟩] ∧
          occupancy (eventsRel [(a, b), (b, c)]) = [⟨a, 100⟩, ⟨b, 0⟩, ⟨b, 100⟩, ⟨c, 0⟩] ∧
          occupancy (eventsRel [(b, c), (a, b)]) = [⟨a, 100⟩, ⟨b, 0⟩, ⟨b, 100⟩, ⟨c, 0⟩] ∧
          activeTrace 0 (sortEvs (eventsAbs [(a, b), (b, c)])) = [1, 0, 1, 0] ∧
          ∀ x ∈ activeTrace 0 (sortEvs (eventsAbs [(a, b), (b, c)])), x ≤ 1) := by
  refine ⟨?_, sortEvs_of_perm, ?_⟩
  · intro evs
    have hs : (sortEvs evs).Pairwise
        (fun x y => x.ts < y.ts ∨ (x.ts = y.ts ∧ x.delta ≤ y.delta)) :=
      List.Pairwise.imp (fun {x y} h => (evLe_iff x y).mp h) (sortEvs_sorted evs)
    refine ⟨sortEvs_perm evs, hs, ?_⟩
    intro t hsub
    have := List.pairwise_iff_forall_sublist.mp hs hsub
    simp only [lt_self_iff_false, true_and, false_or] at this
    omega
  · intro a b c hab hbc
    have hac : a < c := by omega
    have n1 : ¬ b < a := by omega
    have n2 : ¬ c < a := by omega
    have n3 : ¬ c < b := by omega
    have e1 : a ≠ b := by omega
    have e2 : a ≠ c := by omega
    have e3 : b ≠ c := by omega
    have hsort : sortEvs (eventsAbs [(a, b), (b, c)]) =
        [{ ts := a, delta := 1 }, { ts := b, delta := -1 }, { ts := b, delta := 1 },
         { ts := c, delta := -1 }] := by
      simp [eventsAbs, sortEvs, List.insertionSort, List.orderedInsert, evLess, *,
        Ne.symm e1, Ne.symm e2, Ne.symm e3]
    have hsort2 : sortEvs (eventsAbs [(b, c), (a, b)]) = sortEvs (eventsAbs [(a, b), (b, c)]) := by
      rw [hsort]
      simp [eventsAbs, sortEvs, List.insertionSort, List.orderedInsert, evLess, *,
        Ne.symm e1, Ne.symm e2, Ne.symm e3]
    have hr1 : eventsRel [(a, b), (b, c)] = eventsAbs [(a, b), (b, c)] := by
      simp [eventsRel, eventsAbs, hab, hbc]
    have hr2 : eventsRel [(b, c), (a, b)] = eventsAbs [(b, c), (a, b)] := by
      simp [eventsRel, eventsAbs, hab, hbc]
    have ho1 : occupancy (eventsAbs [(a, b), (b, c)]) =
        [⟨a, 100⟩, ⟨b, 0⟩, ⟨b, 100⟩, ⟨c, 0⟩] := by
      rw [occupancy_eq_scan _ (by simp), hsort]
      simp [scan]
    have ho2 : occupancy (eventsAbs [(b, c), (a, b)]) =
        [⟨a, 100⟩, ⟨b, 0⟩, ⟨b, 100⟩, ⟨c, 0⟩] := by
      rw [occupancy_eq_scan _ (by simp), hsort2, hsort]
      simp [scan]
    refine ⟨hsort, hsort2, hr1, hr2, ho1, ho2, by rw [hr1]; exact ho1, by rw [hr2]; exact ho2,
      ?_, ?_⟩
    · rw [hsort]
      simp [activeTrace]
    · rw [hsort]
      simp [activeTrace]

/-- The scan over a non-empty list of intervals with `start < end`. -/
theorem occupancy_invariant (ivs : List Placed) (hne : ivs ≠ [])
    (hlt : ∀ iv ∈ ivs, iv.1 < iv.2) :
    eventsRel ivs = eventsAbs ivs ∧
      occupancy (eventsAbs ivs) = scan 0 (sortEvs (eventsAbs ivs)) ∧
      (∀ c ∈ activeTrace 0 (sortEvs (eventsAbs ivs)), 0 ≤ c) ∧
      scanActive 0 (sortEvs (eventsAbs ivs)) = 0 ∧
      Alternates 100 (occupancy (eventsAbs ivs)) ∧
      (∃ m, (occupancy (eventsAbs ivs)).head? = some { ts := m, percent := 100 } ∧
        (∃ iv ∈ ivs, iv.1 = m) ∧ ∀ iv ∈ ivs, m ≤ iv.1) ∧
      (∃ M, (occupancy (eventsAbs ivs)).getLast? = some { ts := M, percent := 0 } ∧
        (∃ iv ∈ ivs, iv.2 = M) ∧ ∀ iv ∈ ivs, iv.2 ≤ M) ∧
      ((occupancy (eventsAbs ivs)).map Sample.ts).Pairwise (· ≤ ·) := by
  have hocc := occupancy_eq_scan ivs hne
  have hn := activeTrace_nonneg ivs hlt
  refine ⟨eventsRel_eq_eventsAbs ivs hlt, hocc, hn, scanActive_sorted_events ivs, ?_,
    occupancy_first ivs hne hlt, occupancy_last ivs hne hlt, ?_⟩
  · rw [hocc]
    have hd : ∀ ev ∈ sortEvs (eventsAbs ivs), ev.delta = 1 ∨ ev.delta = -1 :=
      fun ev hev => eventsAbs_delta ivs ev ((sortEvs_perm _).mem_iff.mp hev)
    have := scan_alternates (sortEvs (eventsAbs ivs)) 0 (le_refl _) hd hn
    simpa using this
  · rw [hocc]
    exact (sorted_ts _ (sortEvs_sorted _)).sublist (scan_ts_sublist _ 0)

/-- The samples of a concatenation. -/
theorem samplesOf_append (a b : List Effect) :
    samplesOf (a ++ b) = samplesOf a ++ samplesOf b := by
  induction a with
  | nil => rfl
  | cons x xs ih => cases x <;> simp [samplesOf, ih]

/-- Span effects hold no sample. -/
theorem samplesOf_map_span (l : List Span) : samplesOf (l.map Effect.span) = [] := by
  induction l with
  | nil => rfl
  | cons x xs ih => simp [samplesOf, ih]

/-- The samples of a list of counter effects. -/
theorem samplesOf_map_counter (l : List Sample) : samplesOf (l.map Effect.counter) = l := by
  induction l with
  | nil => rfl
  | cons x xs ih => simp [samplesOf, ih]

/-- The samples of a pass are the scan of its sorted events. -/
theorem occupancy_eq (evs : List Ev) : occupancy evs = scan 0 (sortEvs evs) := by
  cases evs with
  | nil => rfl
  | cons x xs => rfl

/-- The counters Path A emits are the occupancy scan over the spans it emits. -/
theorem emitAbs_samples (w : World) (st : State) :
    samplesOf (emitAbs w st).2.1 =
      occupancy (eventsAbs ((spansOf (emitAbs w st).2.1).map Span.placed)) := by
  by_cases ha : st.g_vk_dump_timeline_abs = true
  · rcases hd : w.vk_dump_timeline_abs
      (replaceTail (llama_perfetto_tmp_stats_path w st) vktimeline_abs) with ⟨ok, file⟩
    unfold emitAbs
    simp only [ha, if_true, hd]
    cases ok with
    | false => simp [samplesOf, spansOf, occupancy, eventsAbs]
    | true =>
      cases file with
      | none => simp [samplesOf, spansOf, occupancy, eventsAbs]
      | some content =>
        simp only [if_true]
        cases hp : parseAbs (getlines content) with
        | nil => simp [samplesOf, spansOf, occupancy, eventsAbs]
        | cons r rs =>
          simp only [List.isEmpty_cons, Bool.not_false, if_true]
          rw [samplesOf_append, samplesOf_append, samplesOf_append, samplesOf_map_span,
            samplesOf_map_counter, spansOf_append, spansOf_append, spansOf_append,
            spansOf_map_span, spansOf_map_counter]
          by_cases hda : st.desc_abs = true <;> simp [hda, samplesOf, spansOf]
  · unfold emitAbs
    simp [ha, samplesOf, spansOf, occupancy, eventsAbs]

/-- The counters Path B emits are the gated occupancy scan over the spans it emits. -/
theorem emitRel_samples (w : World) (st : State) :
    samplesOf (emitRel w st).2 =
      occupancy (eventsRel ((spansOf (emitRel w st).2).map Span.placed)) := by
  rcases hd : w.vk_dump_timeline
    (replaceTail (llama_perfetto_tmp_stats_path w st) vktimeline) with ⟨ok, file⟩
  unfold emitRel
  simp only [hd]
  cases ok with
  | false => simp [samplesOf, spansOf, occupancy, eventsRel]
  | true =>
    cases file with
    | none => simp [samplesOf, spansOf, occupancy, eventsRel]
    | some content =>
      simp only [Bool.not_true, Bool.false_eq_true, if_false]
      rcases hpr : parseRel (getlines content) 0 with ⟨entries, total⟩
      simp only
      by_cases hg : (entries.isEmpty || decide (total = 0)) = true
      · simp only [hg, if_true]
        simp [samplesOf, spansOf, occupancy, eventsRel]
      · simp only [hg, Bool.false_eq_true, if_false]
        rw [samplesOf_append, samplesOf_append, samplesOf_append, samplesOf_map_span,
          samplesOf_map_counter, spansOf_append, spansOf_append, spansOf_append,
          spansOf_map_span, spansOf_map_counter]
        by_cases hda : st.desc_rel = true <;> simp [hda, samplesOf, spansOf]
/-- A Path A that does not emit leaves the state alone and has no span and no sample. -/
theorem emitAbs_not_emitted (w : World) (st : State) (h : (emitAbs w st).2.2 = false) :
    (emitAbs w st).1 = st ∧ spansOf (emitAbs w st).2.1 = [] ∧
      samplesOf (emitAbs w st).2.1 = [] := by
  by_cases ha : st.g_vk_dump_timeline_abs = true
  · rcases hd : w.vk_dump_timeline_abs
      (replaceTail (llama_perfetto_tmp_stats_path w st) vktimeline_abs) with ⟨ok, file⟩
    unfold emitAbs at h ⊢
    simp only [ha, if_true, hd] at h ⊢
    cases ok with
    | false => simp [samplesOf, spansOf]
    | true =>
      cases file with
      | none => simp [samplesOf, spansOf]
      | some content =>
        simp only [if_true] at h ⊢
        cases hp : parseAbs (getlines content) with
        | nil => simp [samplesOf, spansOf]
        | cons r rs =>
          rw [hp] at h
          simp at h
  · unfold emitAbs
    simp [ha, samplesOf, spansOf]

/-- The spans and samples of a whole call are none, those of Path A, or those of Path B. -/
theorem emit_entry (w : World) (st : State) :
    (spansOf (llama_perfetto_emit_gpu_timeline w st).2 = [] ∧
        samplesOf (llama_perfetto_emit_gpu_timeline w st).2 = []) ∨
      (spansOf (llama_perfetto_emit_gpu_timeline w st).2 =
          spansOf (emitAbs w (llama_perfetto_resolve_vk_syms_once w st)).2.1 ∧
        samplesOf (llama_perfetto_emit_gpu_timeline w st).2 =
          samplesOf (emitAbs w (llama_perfetto_resolve_vk_syms_once w st)).2.1) ∨
      (spansOf (llama_perfetto_emit_gpu_timeline w st).2 =
          spansOf (emitRel w (llama_perfetto_resolve_vk_syms_once w st)).2 ∧
        samplesOf (llama_perfetto_emit_gpu_timeline w st).2 =
          samplesOf (emitRel w (llama_perfetto_resolve_vk_syms_once w st)).2) := by
  by_cases hs : st.g_session = true
  · by_cases hr : (llama_perfetto_resolve_vk_syms_once w st).g_vk_dump_timeline = true
    · by_cases hem : (emitAbs w (llama_perfetto_resolve_vk_syms_once w st)).2.2 = true
      · right; left
        unfold llama_perfetto_emit_gpu_timeline
        simp [hs, hr, hem]
      · right; right
        have hem2 : (emitAbs w (llama_perfetto_resolve_vk_syms_once w st)).2.2 = false := by
          simpa using hem
        obtain ⟨h1, h2, h3⟩ := emitAbs_not_emitted w _ hem2
        unfold llama_perfetto_emit_gpu_timeline
        simp [hs, hr, hem2, h1, h2, h3, spansOf_append, samplesOf_append]
    · left
      unfold llama_perfetto_emit_gpu_timeline
      simp [hs, hr, spansOf, samplesOf]
  · left
    unfold llama_perfetto_emit_gpu_timeline
    simp [hs, spansOf, samplesOf]

/-- The events of Path B are those of the intervals whose end lies after their start. -/
theorem eventsRel_eq_filter (l : List Placed) :
    eventsRel l = eventsAbs (l.filter (fun p => decide (p.2 > p.1))) := by
  induction l with
  | nil => rfl
  | cons p rest ih =>
    obtain ⟨s, e⟩ := p
    by_cases h : e > s
    · simp [eventsRel, eventsAbs, List.filter_cons, h, ih]
    · simp [eventsRel, List.filter_cons, h, ih]

/-- The counters of a whole call whose spans all have `start < end`. -/
theorem emit_samples_entry (w : World) (st : State)
    (hlt : ∀ iv ∈ (spansOf (llama_perfetto_emit_gpu_timeline w st).2).map Span.placed,
      iv.1 < iv.2) :
    samplesOf (llama_perfetto_emit_gpu_timeline w st).2 =
      occupancy (eventsAbs
        ((spansOf (llama_perfetto_emit_gpu_timeline w st).2).map Span.placed)) := by
  rcases emit_entry w st with ⟨h1, h2⟩ | ⟨h1, h2⟩ | ⟨h1, h2⟩
  · rw [h1, h2]; rfl
  · rw [h2, h1]; exact emitAbs_samples w _
  · rw [h2, ← eventsRel_eq_eventsAbs _ hlt, h1]; exact emitRel_samples w _
/-- C2.  Occupancy step function.  For `a < b < c < d` the two disjoint
intervals `[a,b]`, `[c,d]` give the samples 100 at `a`, 0 at `b`, 100 at `c`,
0 at `d`; for `a < c < b < d` the two overlapping intervals `[a,b]`, `[c,d]`
give 100 at `a`, 0 at `d` and nothing else.  This holds for the scan over the
events of either path and either input order, and for what is emitted: when
the spans that Path A, Path B or a whole call of
`llama_perfetto_emit_gpu_timeline` places are these two intervals, in either
order, the `gpu_busy_percent` samples it emits are exactly those. -/
theorem occupancy_two_intervals (a b c d : Nat) :
    (a < b → b < c → c < d →
      occupancy (eventsAbs [(a, b), (c, d)]) = [⟨a, 100⟩, ⟨b, 0⟩, ⟨c, 100⟩, ⟨d, 0⟩] ∧
      occupancy (eventsAbs [(c, d), (a, b)]) = [⟨a, 100⟩, ⟨b, 0⟩, ⟨c, 100⟩, ⟨d, 0⟩] ∧
      occupancy (eventsRel [(a, b), (c, d)]) = [⟨a, 100⟩, ⟨b, 0⟩, ⟨c, 100⟩, ⟨d, 0⟩] ∧
      occupancy (eventsRel [(c, d), (a, b)]) = [⟨a, 100⟩, ⟨b, 0⟩, ⟨c, 100⟩, ⟨d, 0⟩] ∧
      ∀ (w : World) (st : State) (ivs : List Placed),
        ivs = [(a, b), (c, d)] ∨ ivs = [(c, d), (a, b)] →
        ((spansOf (emitAbs w st).2.1).map Span.placed = ivs →
          samplesOf (emitAbs w st).2.1 = [⟨a, 100⟩, ⟨b, 0⟩, ⟨c, 100⟩, ⟨d, 0⟩]) ∧
        ((spansOf (emitRel w st).2).map Span.placed = ivs →
          samplesOf (emitRel w st).2 = [⟨a, 100⟩, ⟨b, 0⟩, ⟨c, 100⟩, ⟨d, 0⟩]) ∧
        ((spansOf (llama_perfetto_emit_gpu_timeline w st).2).map Span.placed = ivs →
          samplesOf (llama_perfetto_emit_gpu_timeline w st).2 =
            [⟨a, 100⟩, ⟨b, 0⟩, ⟨c, 100⟩, ⟨d, 0⟩])) ∧
    (a < c → c < b → b < d →
      occupancy (eventsAbs [(a, b), (c, d)]) = [⟨a, 100⟩, ⟨d, 0⟩] ∧
      occupancy (eventsAbs [(c, d), (a, b)]) = [⟨a, 100⟩, ⟨d, 0⟩] ∧
      occupancy (eventsRel [(a, b), (c, d)]) = [⟨a, 100⟩, ⟨d, 0⟩] ∧
      occupancy (eventsRel [(c, d), (a, b)]) = [⟨a, 100⟩, ⟨d, 0⟩] ∧
      ∀ (w : World) (st : State) (ivs : List Placed),
        ivs = [(a, b), (c, d)] ∨ ivs = [(c, d), (a, b)] →
        ((spansOf (emitAbs w st).2.1).map Span.placed = ivs →
          samplesOf (emitAbs w st).2.1 = [⟨a, 100⟩, ⟨d, 0⟩]) ∧
        ((spansOf (emitRel w st).2).map Span.placed = ivs →
          samplesOf (emitRel w st).2 = [⟨a, 100⟩, ⟨d, 0⟩]) ∧
        ((spansOf (llama_perfetto_emit_gpu_timeline w st).2).map Span.placed = ivs →
          samplesOf (llama_perfetto_emit_gpu_timeline w st).2 = [⟨a, 100⟩, ⟨d, 0⟩])) := by
  constructor
  · intro h1 h2 h3
    obtain ⟨p1, p2, p3, p4⟩ := (occupancy_pair a b c d).1 h1 h2 h3
    refine ⟨p1, p2, p3, p4, ?_⟩
    intro w st ivs hivs
    have hlt : ∀ iv ∈ ivs, iv.1 < iv.2 := by
      rcases hivs with rfl | rfl <;> simp <;> omega
    refine ⟨?_, ?_, ?_⟩
    · intro hp
      rw [emitAbs_samples, hp]
      rcases hivs with rfl | rfl
      · exact p1
      · exact p2
    · intro hp
      rw [emitRel_samples, hp]
      rcases hivs with rfl | rfl
      · exact p3
      · exact p4
    · intro hp
      rw [emit_samples_entry w st (by rw [hp]; exact hlt), hp]
      rcases hivs with rfl | rfl
      · exact p1
      · exact p2
  · intro h1 h2 h3
    obtain ⟨p1, p2, p3, p4⟩ := (occupancy_pair a b c d).2 h1 h2 h3
    refine ⟨p1, p2, p3, p4, ?_⟩
    intro w st ivs hivs
    have hlt : ∀ iv ∈ ivs, iv.1 < iv.2 := by
      rcases hivs with rfl | rfl <;> simp <;> omega
    refine ⟨?_, ?_, ?_⟩
    · intro hp
      rw [emitAbs_samples, hp]
      rcases hivs with rfl | rfl
      · exact p1
      · exact p2
    · intro hp
      rw [emitRel_samples, hp]
      rcases hivs with rfl | rfl
      · exact p3
      · exact p4
    · intro hp
      rw [emit_samples_entry w st (by rw [hp]; exact hlt), hp]
      rcases hivs with rfl | rfl
      · exact p1
      · exact p2

/-- C2, witness: `[0,10]`, `[20,30]` and `[0,10]`, `[5,15]`, placed by a whole
call through Path A and through Path B. -/
theorem occupancy_two_intervals_witness :
    samplesOf (llama_perfetto_emit_gpu_timeline (worldDisjoint true) stateOpen).2 =
        [⟨0, 100⟩, ⟨10, 0⟩, ⟨20, 100⟩, ⟨30, 0⟩] ∧
      samplesOf (llama_perfetto_emit_gpu_timeline (worldDisjoint false) stateOpen).2 =
        [⟨0, 100⟩, ⟨10, 0⟩, ⟨20, 100⟩, ⟨30, 0⟩] ∧
      samplesOf (llama_perfetto_emit_gpu_timeline (worldOverlap true) stateOpen).2 =
        [⟨0, 100⟩, ⟨15, 0⟩] ∧
      samplesOf (llama_perfetto_emit_gpu_timeline (worldOverlap false) stateOpen).2 =
        [⟨0, 100⟩, ⟨15, 0⟩] :=
  ⟨(((occupancy_two_intervals 0 10 20 30).1 (by decide) (by decide) (by decide)).2.2.2.2
      (worldDisjoint true) stateOpen _ (Or.inl rfl)).2.2 (by decide),
   (((occupancy_two_intervals 0 10 20 30).1 (by decide) (by decide) (by decide)).2.2.2.2
      (worldDisjoint false) stateOpen _ (Or.inl rfl)).2.2 (by decide),
   (((occupancy_two_intervals 0 10 5 15).2 (by decide) (by decide) (by decide)).2.2.2.2
      (worldOverlap true) stateOpen _ (Or.inl rfl)).2.2 (by decide),
   (((occupancy_two_intervals 0 10 5 15).2 (by decide) (by decide) (by decide)).2.2.2.2
      (worldOverlap false) stateOpen _ (Or.inl rfl)).2.2 (by decide)⟩
/-- C11.  Tie-break at exact boundaries.  Whatever the input, the sorted
event vector is a permutation of it in ascending timestamp order with, at
equal timestamps, ascending delta: a begin event (+1) never stands before an
end event (-1) of the same timestamp; and the result does not depend on the
input order.  Each path emits the samples of the scan over that sorted vector
of the events it built from the spans it placed.  Consequently, for
`a < b < c` the touching intervals `[a,b]`, `[b,c]` are scanned as begin `a`,
end `b`, begin `b`, end `c`; when the spans Path A, Path B or a whole call
places are these two, in either order, the samples emitted are 100 at `a`,
0 at `b`, 100 at `b`, 0 at `c`, and the running count of the scan reads
1, 0, 1, 0: never above 1. -/
theorem tie_break_at_boundaries :
    (∀ evs : List Ev, (sortEvs evs).Perm evs ∧
        (sortEvs evs).Pairwise
          (fun x y => x.ts < y.ts ∨ (x.ts = y.ts ∧ x.delta ≤ y.delta)) ∧
        ∀ t, ¬ List.Sublist [{ ts := t, delta := 1 }, { ts := t, delta := -1 }] (sortEvs evs)) ∧
      (∀ evs1 evs2 : List Ev, evs1.Perm evs2 → sortEvs evs1 = sortEvs evs2) ∧
      (∀ (w : World) (st : State),
        samplesOf (emitAbs w st).2.1 =
            scan 0 (sortEvs (eventsAbs ((spansOf (emitAbs w st).2.1).map Span.placed))) ∧
          samplesOf (emitRel w st).2 =
            scan 0 (sortEvs (eventsRel ((spansOf (emitRel w st).2).map Span.placed)))) ∧
      (∀ a b c : Nat, a < b → b < c →
        sortEvs (eventsAbs [(a, b), (b, c)]) =
            [{ ts := a, delta := 1 }, { ts := b, delta := -1 }, { ts := b, delta := 1 },
             { ts := c, delta := -1 }] ∧
          sortEvs (eventsAbs [(b, c), (a, b)]) = sortEvs (eventsAbs [(a, b), (b, c)]) ∧
          eventsRel [(a, b), (b, c)] = eventsAbs [(a, b), (b, c)] ∧
          eventsRel [(b, c), (a, b)] = eventsAbs [(b, c), (a, b)] ∧
          occupancy (eventsAbs [(a, b), (b, c)]) = [⟨a, 100⟩, ⟨b, 0⟩, ⟨b, 100⟩, ⟨c, 0⟩] ∧
          occupancy (eventsAbs [(b, c), (a, b)]) = [⟨a, 100⟩, ⟨b, 0⟩, ⟨b, 100⟩, ⟨c, 0⟩] ∧
          occupancy (eventsRel [(a, b), (b, c)]) = [⟨a, 100⟩, ⟨b, 0⟩, ⟨b, 100⟩, ⟨c, 0⟩] ∧
          occupancy (eventsRel [(b, c), (a, b)]) = [⟨a, 100⟩, ⟨b, 0⟩, ⟨b, 100⟩, ⟨c, 0⟩] ∧
          activeTrace 0 (sortEvs (eventsAbs [(a, b), (b, c)])) = [1, 0, 1, 0] ∧
          (∀ x ∈ activeTrace 0 (sortEvs (eventsAbs [(a, b), (b, c)])), x ≤ 1) ∧
          ∀ (w : World) (st : State) (ivs : List Placed),
            ivs = [(a, b), (b, c)] ∨ ivs = [(b, c), (a, b)] →
            activeTrace 0 (sortEvs (eventsAbs ivs)) = [1, 0, 1, 0] ∧
            activeTrace 0 (sortEvs (eventsRel ivs)) = [1, 0, 1, 0] ∧
            ((spansOf (emitAbs w st).2.1).map Span.placed = ivs →
              samplesOf (emitAbs w st).2.1 = [⟨a, 100⟩, ⟨b, 0⟩, ⟨b, 100⟩, ⟨c, 0⟩]) ∧
            ((spansOf (emitRel w st).2).map Span.placed = ivs →
              samplesOf (emitRel w st).2 = [⟨a, 100⟩, ⟨b, 0⟩, ⟨b, 100⟩, ⟨c, 0⟩]) ∧
            ((spansOf (llama_perfetto_emit_gpu_timeline w st).2).map Span.placed = ivs →
              samplesOf (llama_perfetto_emit_gpu_timeline w st).2 =
                [⟨a, 100⟩, ⟨b, 0⟩, ⟨b, 100⟩, ⟨c, 0⟩])) := by
  obtain ⟨g1, g2, g3⟩ := sortEvs_tie_break
  refine ⟨g1, g2, ?_, ?_⟩
  · intro w st
    exact ⟨by rw [emitAbs_samples, occupancy_eq], by rw [emitRel_samples, occupancy_eq]⟩
  · intro a b c hab hbc
    obtain ⟨q1, q2, q3, q4, q5, q6, q7, q8, q9, q10⟩ := g3 a b c hab hbc
    refine ⟨q1, q2, q3, q4, q5, q6, q7, q8, q9, q10, ?_⟩
    intro w st ivs hivs
    have hlt : ∀ iv ∈ ivs, iv.1 < iv.2 := by
      rcases hivs with rfl | rfl <;> simp <;> omega
    refine ⟨?_, ?_, ?_, ?_, ?_⟩
    · rcases hivs with rfl | rfl
      · exact q9
      · rw [q2]; exact q9
    · rcases hivs with rfl | rfl
      · rw [q3]; exact q9
      · rw [q4, q2]; exact q9
    · intro hp
      rw [emitAbs_samples, hp]
      rcases hivs with rfl | rfl
      · exact q5
      · exact q6
    · intro hp
      rw [emitRel_samples, hp]
      rcases hivs with rfl | rfl
      · exact q7
      · exact q8
    · intro hp
      rw [emit_samples_entry w st (by rw [hp]; exact hlt), hp]
      rcases hivs with rfl | rfl
      · exact q5
      · exact q6

/-- C11, witness: the touching intervals `[0,10]`, `[10,20]`, placed by a
whole call through Path A and through Path B. -/
theorem tie_break_at_boundaries_witness :
    samplesOf (llama_perfetto_emit_gpu_timeline (worldTouching true) stateOpen).2 =
        [⟨0, 100⟩, ⟨10, 0⟩, ⟨10, 100⟩, ⟨20, 0⟩] ∧
      samplesOf (llama_perfetto_emit_gpu_timeline (worldTouching false) stateOpen).2 =
        [⟨0, 100⟩, ⟨10, 0⟩, ⟨10, 100⟩, ⟨20, 0⟩] ∧
      activeTrace 0 (sortEvs (eventsAbs [(0, 10), (10, 20)])) = [1, 0, 1, 0] :=
  ⟨((tie_break_at_boundaries.2.2.2 0 10 20 (by decide) (by decide)).2.2.2.2.2.2.2.2.2.2
      (worldTouching true) stateOpen _ (Or.inl rfl)).2.2.2.2 (by decide),
   ((tie_break_at_boundaries.2.2.2 0 10 20 (by decide) (by decide)).2.2.2.2.2.2.2.2.2.2
      (worldTouching false) stateOpen _ (Or.inl rfl)).2.2.2.2 (by decide),
   ((tie_break_at_boundaries.2.2.2 0 10 20 (by decide) (by decide)).2.2.2.2.2.2.2.2.2.2
      (worldTouching true) stateOpen [(0, 10), (10, 20)] (Or.inl rfl)).1⟩

/-- C12.  Invariant of the occupancy scan.  For a non-empty list of placed
intervals, each with `start < end` (both paths then build the same events):
the running count is never negative during the scan and is 0 at its end; the
samples alternate 100, 0, 100, 0, ...; the first is 100 at the least start,
the last is 0 at the greatest end; and the timestamps never decrease.  The
samples are those emitted: when the spans Path A, Path B or a whole call
of `llama_perfetto_emit_gpu_timeline` places are these intervals, the samples
it emits are the scan of their sorted events and have all these properties. -/
theorem occupancy_scan_invariant (ivs : List Placed) (hne : ivs ≠ [])
    (hlt : ∀ iv ∈ ivs, iv.1 < iv.2) :
    eventsRel ivs = eventsAbs ivs ∧
      occupancy (eventsAbs ivs) = scan 0 (sortEvs (eventsAbs ivs)) ∧
      (∀ c ∈ activeTrace 0 (sortEvs (eventsAbs ivs)), 0 ≤ c) ∧
      scanActive 0 (sortEvs (eventsAbs ivs)) = 0 ∧
      Alternates 100 (occupancy (eventsAbs ivs)) ∧
      (∃ m, (occupancy (eventsAbs ivs)).head? = some { ts := m, percent := 100 } ∧
        (∃ iv ∈ ivs, iv.1 = m) ∧ ∀ iv ∈ ivs, m ≤ iv.1) ∧
      (∃ M, (occupancy (eventsAbs ivs)).getLast? = some { ts := M, percent := 0 } ∧
        (∃ iv ∈ ivs, iv.2 = M) ∧ ∀ iv ∈ ivs, iv.2 ≤ M) ∧
      ((occupancy (eventsAbs ivs)).map Sample.ts).Pairwise (· ≤ ·) ∧
      (∀ (w : World) (st : State), (spansOf (emitAbs w st).2.1).map Span.placed = ivs →
        samplesOf (emitAbs w st).2.1 = scan 0 (sortEvs (eventsAbs ivs)) ∧
          ScanInvariant ivs (samplesOf (emitAbs w st).2.1)) ∧
      (∀ (w : World) (st : State), (spansOf (emitRel w st).2).map Span.placed = ivs →
        samplesOf (emitRel w st).2 = scan 0 (sortEvs (eventsRel ivs)) ∧
          ScanInvariant ivs (samplesOf (emitRel w st).2)) ∧
      (∀ (w : World) (st : State),
        (spansOf (llama_perfetto_emit_gpu_timeline w st).2).map Span.placed = ivs →
        samplesOf (llama_perfetto_emit_gpu_timeline w st).2 =
            scan 0 (sortEvs (eventsAbs ivs)) ∧
          ScanInvariant ivs (samplesOf (llama_perfetto_emit_gpu_timeline w st).2)) := by
  obtain ⟨c1, c2, c3, c4, c5, c6, c7, c8⟩ := occupancy_invariant ivs hne hlt
  have hinv : ScanInvariant ivs (scan 0 (sortEvs (eventsAbs ivs))) := by
    rw [← c2]; exact ⟨c5, c6, c7, c8⟩
  refine ⟨c1, c2, c3, c4, c5, c6, c7, c8, ?_, ?_, ?_⟩
  · intro w st hp
    have e : samplesOf (emitAbs w st).2.1 = scan 0 (sortEvs (eventsAbs ivs)) := by
      rw [emitAbs_samples, hp, occupancy_eq]
    exact ⟨e, by rw [e]; exact hinv⟩
  · intro w st hp
    have e : samplesOf (emitRel w st).2 = scan 0 (sortEvs (eventsRel ivs)) := by
      rw [emitRel_samples, hp, occupancy_eq]
    exact ⟨e, by rw [e, c1]; exact hinv⟩
  · intro w st hp
    have e : samplesOf (llama_perfetto_emit_gpu_timeline w st).2 =
        scan 0 (sortEvs (eventsAbs ivs)) := by
      rw [emit_samples_entry w st (by rw [hp]; exact hlt), hp, occupancy_eq]
    exact ⟨e, by rw [e]; exact hinv⟩

/-- C12, witness: the intervals `[5,15]`, `[0,10]`, `[15,20]`, `[30,40]`,
placed by a whole call through Path A and through Path B. -/
theorem occupancy_scan_invariant_witness :
    samplesOf (llama_perfetto_emit_gpu_timeline (worldFour true) stateOpen).2 =
        [⟨0, 100⟩, ⟨15, 0⟩, ⟨15, 100⟩, ⟨20, 0⟩, ⟨30, 100⟩, ⟨40, 0⟩] ∧
      samplesOf (llama_perfetto_emit_gpu_timeline (worldFour false) stateOpen).2 =
        [⟨0, 100⟩, ⟨15, 0⟩, ⟨15, 100⟩, ⟨20, 0⟩, ⟨30, 100⟩, ⟨40, 0⟩] ∧
      activeTrace 0 (sortEvs (eventsAbs [(5, 15), (0, 10), (15, 20), (30, 40)])) =
        [1, 2, 1, 0, 1, 0, 1, 0] ∧
      ScanInvariant [(5, 15), (0, 10), (15, 20), (30, 40)]
        (samplesOf (llama_perfetto_emit_gpu_timeline (worldFour true) stateOpen).2) ∧
      ScanInvariant [(5, 15), (0, 10), (15, 20), (30, 40)]
        (samplesOf (llama_perfetto_emit_gpu_timeline (worldFour false) stateOpen).2) :=
  ⟨by decide, by decide, by decide,
   ((occupancy_scan_invariant [(5, 15), (0, 10), (15, 20), (30, 40)] (by decide)
      (by decide)).2.2.2.2.2.2.2.2.2.2 (worldFour true) stateOpen (by decide)).2,
   ((occupancy_scan_invariant [(5, 15), (0, 10), (15, 20), (30, 40)] (by decide)
      (by decide)).2.2.2.2.2.2.2.2.2.2 (worldFour false) stateOpen (by decide)).2⟩
/-- C1 (amended).  Record validity holds on Path A and not on Path B.
Path A: when the absolute dump is read, the spans emitted are exactly the
placements of the parsed records with `end > start` and `start != 0`, in file
order, so a record with `end <= start` or `start == 0` gets no span; every
span it emits feeds the occupancy scan.
Path B: when the relative dump is read and some record has a non-zero end,
every parsed record, valid or not, gets its span; only the occupancy events
are gated: the samples Path B emits are the scan over the events of those
placed spans whose end lies after their start, a span with placed
`end <= start` adding no event and any other its begin and end event. -/
theorem record_validity (w : World) (st : State) (content : List Char) :
    (st.g_vk_dump_timeline_abs = true →
        w.vk_dump_timeline_abs
          (replaceTail (llama_perfetto_tmp_stats_path w st) vktimeline_abs) = (true, some content) →
        spansOf (emitAbs w st).2.1 =
          ((parsedRecords content).filter Entry.valid).map (placeAbs (clockOffset w))) ∧
      (w.vk_dump_timeline
          (replaceTail (llama_perfetto_tmp_stats_path w st) vktimeline) = (true, some content) →
        maxEnd (parsedRecords content) ≠ 0 →
        spansOf (emitRel w st).2 =
          (parsedRecords content).map
            (placeRel (relNow w st) (maxEnd (parsedRecords content)))) ∧
      samplesOf (emitAbs w st).2.1 =
        occupancy (eventsAbs ((spansOf (emitAbs w st).2.1).map Span.placed)) ∧
      samplesOf (emitRel w st).2 =
        occupancy (eventsRel ((spansOf (emitRel w st).2).map Span.placed)) ∧
      samplesOf (emitRel w st).2 =
        occupancy (eventsAbs
          (((spansOf (emitRel w st).2).map Span.placed).filter (fun p => decide (p.2 > p.1)))) ∧
      (∀ (s e : Nat) (l : List Placed),
        (e ≤ s → eventsRel ((s, e) :: l) = eventsRel l) ∧
        (s < e → eventsRel ((s, e) :: l) =
          { ts := s, delta := 1 } :: { ts := e, delta := -1 } :: eventsRel l) ∧
        eventsAbs ((s, e) :: l) =
          { ts := s, delta := 1 } :: { ts := e, delta := -1 } :: eventsAbs l) := by
  obtain ⟨h1, h2⟩ := record_spans w st content
  refine ⟨h1, h2, emitAbs_samples w st, emitRel_samples w st, ?_, ?_⟩
  · rw [emitRel_samples, eventsRel_eq_filter]
  · intro s e l
    refine ⟨?_, ?_, rfl⟩
    · intro h
      have : ¬ e > s := by omega
      simp [eventsRel, this]
    · intro h
      have : e > s := h
      simp [eventsRel, this]

/-- C1, witness.  Path A on the file `5,9,mul` / `0,3,a` / `7,7,b` / `9,8,c`:
four parsed records, one span, for the only valid one.  Path B on the file
`0,10,k` / `7,3,j`: two spans, and samples for the first alone, the second
being placed with its end before its start. -/
theorem record_validity_witness :
    parsedRecords ['5', ',', '9', ',', 'm', 'u', 'l', '\n', '0', ',', '3', ',', 'a', '\n',
        '7', ',', '7', ',', 'b', '\n', '9', ',', '8', ',', 'c', '\n'] =
        [⟨['m', 'u', 'l'], 5, 9⟩, ⟨['a'], 0, 3⟩, ⟨['b'], 7, 7⟩, ⟨['c'], 9, 8⟩] ∧
      spansOf (emitAbs (worldMixed true)
          (llama_perfetto_resolve_vk_syms_once (worldMixed true) stateOpen)).2.1 =
        [⟨['m', 'u', 'l'], 605, 609⟩] ∧
      spansOf (emitRel (worldMixed false)
          (llama_perfetto_resolve_vk_syms_once (worldMixed false) stateOpen)).2 =
        [⟨['k'], 990, 1000⟩, ⟨['j'], 997, 993⟩] ∧
      samplesOf (emitRel (worldMixed false)
          (llama_perfetto_resolve_vk_syms_once (worldMixed false) stateOpen)).2 =
        [⟨990, 100⟩, ⟨1000, 0⟩] := by
  have hA := (record_validity (worldMixed true)
    (llama_perfetto_resolve_vk_syms_once (worldMixed true) stateOpen)
    ['5', ',', '9', ',', 'm', 'u', 'l', '\n', '0', ',', '3', ',', 'a', '\n',
      '7', ',', '7', ',', 'b', '\n', '9', ',', '8', ',', 'c', '\n']).1 (by decide) rfl
  have hB := record_validity (worldMixed false)
    (llama_perfetto_resolve_vk_syms_once (worldMixed false) stateOpen)
    ['0', ',', '1', '0', ',', 'k', '\n', '7', ',', '3', ',', 'j', '\n']
  have hB2 := hB.2.1 rfl (by decide)
  refine ⟨by decide, ?_, ?_, ?_⟩
  · rw [hA]; decide
  · rw [hB2]; decide
  · rw [hB.2.2.2.2.1, hB2]; decide

end LlamaPerfetto
